import Mathlib

/-! A2S_PLAYER query engine (`steam/steamplayer.go`)

A shallow embedding of the player-query code: the response decoder
`parsePlayerInfo`, the duration formatter `getDuration`, the transport session
`getPlayerInfo`, the single-host query `GetPlayersForServer` and the retry
orchestrator `RetryFailedPlayersReq`.

Conventions of the embedding.

* A Go `[]byte` is a `List Nat` (each element a byte value); every slice handled
  by the decoder has capacity equal to its length, as is the case for the buffer
  `getPlayerInfo` allocates with `make([]byte, numread)` and for every suffix of it.
* A Go call returning `(T, error)` is an `Outcome`: either the returned pair, or
  `panic` when the call is aborted by a run-time panic (index or slice bounds out
  of range) and so returns nothing.
* A `float32` is represented by its IEEE-754 bit pattern.
-/

namespace Steam

/-! ## Errors and results -/

/-- The error values of the package. `ErrHostConnection` and `ErrDataTransmit`
wrap the message of the underlying network error. -/
inductive SteamError where
  | ErrHostConnection (msg : String)
  | ErrDataTransmit (msg : String)
  | ErrChallengeResponse
  | ErrPacketHeader
  | ErrNoPlayers
  deriving DecidableEq, Repr

/-- Result of a Go call of signature `(T, error)`: the returned pair, or a
run-time panic. -/
inductive Outcome (α : Type) where
  | ret (val : α) (err : Option SteamError)
  | panic
  deriving DecidableEq, Repr

/-! ## Go slices and the `bytes` package -/

/-- The slice expression `b[lo:hi]` on a slice whose capacity equals its length
(Go checks `hi` against the capacity; the buffers of this file have no spare
capacity, see the conventions above); `none` is the panic "slice bounds out of
range". A negative bound panics whatever the capacity. -/
def slice (b : List Nat) (lo hi : Int) : Option (List Nat) :=
  if 0 ≤ lo ∧ lo ≤ hi ∧ hi ≤ (b.length : Int) then some ((b.take hi.toNat).drop lo.toNat) else none

/-- The slice expression `b[lo:]`. -/
def sliceFrom (b : List Nat) (lo : Int) : Option (List Nat) :=
  slice b lo b.length

/-- The index expression `b[i]`; `none` is the panic "index out of range". -/
def index (b : List Nat) (i : Nat) : Option Nat :=
  b.get? i

/-- Go `bytes.HasPrefix`. -/
def HasPrefix (s pre : List Nat) : Bool :=
  pre.isPrefixOf s

/-- Go `bytes.IndexByte`: index of the first occurrence of `c`, or `-1`. -/
def IndexByte (b : List Nat) (c : Nat) : Int :=
  if b.indexOf c < b.length then (b.indexOf c : Int) else -1

def RuneError : Nat := 0xFFFD

def RuneSelf : Nat := 0x80

/-- Go `utf8.DecodeRune`: the first rune of `p` and its width in bytes; an
invalid encoding yields `(RuneError, 1)`. -/
def DecodeRune (p : List Nat) : Nat × Nat :=
  match p with
  | [] => (RuneError, 0)
  | p0 :: rest =>
    if p0 < 0x80 then (p0, 1)
    else if p0 < 0xC2 ∨ 0xF5 ≤ p0 then (RuneError, 1)
    else
      let sz : Nat := if p0 < 0xE0 then 2 else if p0 < 0xF0 then 3 else 4
      let lo : Nat := if p0 = 0xE0 then 0xA0 else if p0 = 0xF0 then 0x90 else 0x80
      let hi : Nat := if p0 = 0xED then 0x9F else if p0 = 0xF4 then 0x8F else 0xBF
      if p.length < sz then (RuneError, 1)
      else
        match rest with
        | [] => (RuneError, 1)
        | b1 :: rest1 =>
          if b1 < lo ∨ hi < b1 then (RuneError, 1)
          else if sz ≤ 2 then (((p0 &&& 0x1F) <<< 6) ||| (b1 &&& 0x3F), 2)
          else
            match rest1 with
            | [] => (RuneError, 1)
            | b2 :: rest2 =>
              if b2 < 0x80 ∨ 0xBF < b2 then (RuneError, 1)
              else if sz ≤ 3 then
                (((p0 &&& 0x0F) <<< 12) ||| ((b1 &&& 0x3F) <<< 6) ||| (b2 &&& 0x3F), 3)
              else
                match rest2 with
                | [] => (RuneError, 1)
                | b3 :: _ =>
                  if b3 < 0x80 ∨ 0xBF < b3 then (RuneError, 1)
                  else
                    (((p0 &&& 0x07) <<< 18) ||| ((b1 &&& 0x3F) <<< 12) |||
                      ((b2 &&& 0x3F) <<< 6) ||| (b3 &&& 0x3F), 4)

/-- The runes a Go `range` loop yields over the string with bytes `s`. -/
def runesOf : Nat → List Nat → List Nat
  | 0, _ => []
  | _, [] => []
  | fuel + 1, s0 :: rest =>
    let rn : Nat × Nat := if s0 < RuneSelf then (s0, 1) else DecodeRune (s0 :: rest)
    rn.1 :: runesOf fuel ((s0 :: rest).drop rn.2)

/-- Go `containsRune(cutset, r)` of package `bytes`. -/
def containsRune (cutset : List Nat) (r : Nat) : Bool :=
  (runesOf cutset.length cutset).contains r

/-- Go `trimLeftUnicode`: drops leading runes of `s` while they occur in `cutset`. -/
def trimLeftUnicode (cutset : List Nat) : Nat → List Nat → List Nat
  | 0, s => s
  | _, [] => []
  | fuel + 1, s0 :: rest =>
    let rn : Nat × Nat := if s0 < RuneSelf then (s0, 1) else DecodeRune (s0 :: rest)
    if containsRune cutset rn.1 then trimLeftUnicode cutset fuel ((s0 :: rest).drop rn.2)
    else s0 :: rest

/-- Go `bytes.TrimLeft(s, cutset)`. Every rune is at least one byte wide, so
`s.length` iterations always suffice. The single-byte and ASCII fast paths of
the library compute the same result as the general loop. -/
def TrimLeft (s cutset : List Nat) : List Nat :=
  trimLeftUnicode cutset s.length s

/-! ## Package constants declared outside `steamplayer.go` -/

/-- Modelled from the spec: the constant `expectedPlayerChunkHeader` is declared
outside the given sources; the spec gives the player-info response header as
`0xFF 0xFF 0xFF 0xFF 0x44`. -/
def expectedPlayerChunkHeader : List Nat := [0xFF, 0xFF, 0xFF, 0xFF, 0x44]

/-- Modelled from the spec: the constant `expectedPlayerRespHeader` is declared
outside the given sources; the spec gives the challenge-response header as
`0xFF 0xFF 0xFF 0xFF 0x41`. -/
def expectedPlayerRespHeader : List Nat := [0xFF, 0xFF, 0xFF, 0xFF, 0x41]

/-- Modelled from the spec: the constant `headerStr` is declared outside the
given sources; it is the four `0xFF` bytes that precede the type byte, so that,
as the comment in `parsePlayerInfo` says, index 0 of the trimmed buffer is the
`0x44` byte and index 1 the player count. -/
def headerStr : List Nat := [0xFF, 0xFF, 0xFF, 0xFF]

/-- Modelled from the spec: the constant `playerChallengeReq` is declared
outside the given sources; the spec gives the fixed challenge request as
`0xFF 0xFF 0xFF 0xFF 0x55`. -/
def playerChallengeReq : List Nat := [0xFF, 0xFF, 0xFF, 0xFF, 0x55]

/-! ## Numbers: `encoding/binary`, `math`, `time` -/

/-- Go `binary.LittleEndian.Uint32`; `none` is the panic on fewer than 4 bytes. -/
def Uint32 (b : List Nat) : Option Nat :=
  match b with
  | b0 :: b1 :: b2 :: b3 :: _ =>
    some ((b0 % 256 + (b1 % 256) * 2 ^ 8 + (b2 % 256) * 2 ^ 16 + (b3 % 256) * 2 ^ 24) % 2 ^ 32)
  | _ => none

/-- The conversion `int32(u)` of a `uint32`. -/
def int32 (u : Nat) : Int :=
  if u % 2 ^ 32 < 2 ^ 31 then ((u % 2 ^ 32 : Nat) : Int) else ((u % 2 ^ 32 : Nat) : Int) - 2 ^ 32

/-- A `float32`, held as its IEEE-754 bit pattern. -/
structure Float32 where
  bits : Nat
  deriving DecidableEq, Repr

/-- Go `math.Float32frombits`. -/
def Float32frombits (bits : Nat) : Float32 := ⟨bits % 2 ^ 32⟩

namespace Float32

def sign (f : Float32) : Nat := f.bits / 2 ^ 31 % 2

def expo (f : Float32) : Nat := f.bits / 2 ^ 23 % 256

def frac (f : Float32) : Nat := f.bits % 2 ^ 23

/-- Neither an infinity nor a NaN. -/
def isFinite (f : Float32) : Bool := f.expo != 255

/-- The integer significand: `frac` for subnormals, `2^23 + frac` otherwise. -/
def mant (f : Float32) : Nat := if f.expo = 0 then f.frac else 2 ^ 23 + f.frac

/-- The biased exponent the significand is scaled by (`1` for subnormals). -/
def scale (f : Float32) : Nat := if f.expo = 0 then 1 else f.expo

/-- The magnitude truncated to an integer: `mant * 2^(scale - 150)` rounded down. -/
def truncMag (f : Float32) : Nat :=
  if 150 ≤ f.scale then f.mant * 2 ^ (f.scale - 150) else f.mant / 2 ^ (150 - f.scale)

/-- The real number a finite `float32` denotes: `(-1)^sign * mant * 2^(scale - 150)`. -/
def toRat (f : Float32) : ℚ :=
  (if f.sign = 1 then -1 else 1) * (f.mant : ℚ) * (2 : ℚ) ^ ((f.scale : Int) - 150)

end Float32

/-- The conversion `int64(f)` of a `float32`: truncation toward zero. Where the
truncated value does not fit (and for infinities and NaN) Go leaves the result
to the implementation; the value here is the one amd64 produces. -/
def int64 (f : Float32) : Int :=
  if f.expo = 255 ∨ 2 ^ 63 ≤ f.truncMag then -(2 ^ 63)
  else if f.sign = 1 then -(f.truncMag : Int) else (f.truncMag : Int)

/-- Wrap-around of `int64` arithmetic. -/
def wrap64 (z : Int) : Int := (z + 2 ^ 63) % 2 ^ 64 - 2 ^ 63

/-- Go `time.Second`, in nanoseconds. -/
def Second : Nat := 1000000000

/-- The digit byte `byte(digit) + '0'`. -/
def digitByte (d : Nat) : Char := Char.ofNat (d + 48)

/-- The loop of Go `time.fmtFrac`: `prec` low digits of `v`, trailing zeros omitted. -/
def fmtFracLoop : Nat → List Char → Nat → Bool → List Char × Nat × Bool
  | 0, buf, v, print => (buf, v, print)
  | k + 1, buf, v, print =>
    let digit := v % 10
    let print := print || digit != 0
    fmtFracLoop k (if print then digitByte digit :: buf else buf) (v / 10) print

/-- Go `time.fmtFrac`: writes the fraction `v / 10^prec` in front of `buf`
and returns the integer part. -/
def fmtFrac (buf : List Char) (v : Nat) (prec : Nat) : List Char × Nat :=
  let r := fmtFracLoop prec buf v false
  (if r.2.2 then '.' :: r.1 else r.1, r.2.1)

/-- The loop `for v > 0` of Go `time.fmtInt`; `v` iterations always suffice. -/
def fmtIntLoop : Nat → List Char → Nat → List Char
  | 0, buf, _ => buf
  | k + 1, buf, v => if 0 < v then fmtIntLoop k (digitByte (v % 10) :: buf) (v / 10) else buf

/-- Go `time.fmtInt`: writes `v` in decimal in front of `buf`. -/
def fmtInt (buf : List Char) (v : Nat) : List Char :=
  if v = 0 then '0' :: buf else fmtIntLoop v buf v

/-- Go `time.Duration.String` on a duration of `d` nanoseconds. -/
def durationString (d : Int) : String :=
  let neg : Bool := d < 0
  let u : Nat := d.natAbs
  let body : List Char :=
    if u < Second then
      if u = 0 then ['0', 's']
      else if u < 1000 then fmtInt (fmtFrac ['n', 's'] u 0).1 (fmtFrac ['n', 's'] u 0).2
      else if u < 1000000 then fmtInt (fmtFrac ['µ', 's'] u 3).1 (fmtFrac ['µ', 's'] u 3).2
      else fmtInt (fmtFrac ['m', 's'] u 6).1 (fmtFrac ['m', 's'] u 6).2
    else
      let r := fmtFrac ['s'] u 9
      let w := fmtInt r.1 (r.2 % 60)
      let u := r.2 / 60
      if 0 < u then
        let w := fmtInt ('m' :: w) (u % 60)
        let u := u / 60
        if 0 < u then fmtInt ('h' :: w) u else w
      else w
  String.mk (if neg then '-' :: body else body)

/-- Translation of `getDuration`; `none` is the panic of `Uint32` on a short slice. -/
def getDuration (bytes : List Nat) : Option (Float32 × String) :=
  match Uint32 bytes with
  | none => none
  | some bits =>
    let f := Float32frombits bits
    let s := wrap64 (int64 f * (Second : Int))
    some (f, durationString s)

/-! ## The decoder -/

/-- The record type `models.SteamPlayerInfo`. -/
structure SteamPlayerInfo where
  Name : List Nat
  Score : Int
  TimeConnectedSecs : Float32
  TimeConnectedTot : String
  deriving DecidableEq, Repr

/-- The `for i := 0; i < numplayers; i++` loop of `parsePlayerInfo`. The first
argument is the number of iterations left, `i` the loop counter, and
`b`, `startidx`, `players` the loop-carried variables. -/
def parseLoop (unparsed : List Nat) :
    Nat → Nat → List Nat → Int → List SteamPlayerInfo → Outcome (List SteamPlayerInfo)
  | 0, _, _, _, players => .ret players none
  | k + 1, i, b, startidx, players =>
    match (if i = 0 then sliceFrom unparsed startidx else sliceFrom b (startidx + 1)) with
    | none => .panic
    | some b =>
      let nul := IndexByte b 0
      match slice b 0 nul, slice b (nul + 1) (nul + 5), slice b (nul + 5) (nul + 9) with
      | some name, some score, some duration =>
        match getDuration duration, Uint32 score with
        | some (seconds, timeformatted), some sc =>
          parseLoop unparsed k (i + 1) b (nul + 9)
            (players ++ [⟨name, int32 sc, seconds, timeformatted⟩])
        | _, _ => .panic
      | _, _, _ => .panic

/-- Translation of `parsePlayerInfo`. -/
def parsePlayerInfo (unparsed : List Nat) : Outcome (List SteamPlayerInfo) :=
  if !HasPrefix unparsed expectedPlayerChunkHeader then .ret [] (some .ErrPacketHeader)
  else
    let unparsed := TrimLeft unparsed headerStr
    match index unparsed 1 with
    | none => .panic
    | some numplayers =>
      if numplayers = 0 then .ret [] (some .ErrNoPlayers)
      else parseLoop unparsed numplayers 0 [] 3 []

/-- The loop of `parsePlayerInfo` restated on a cursor: `region` is the part
of the buffer that starts at the index byte of the next record, `k` the number
of records still to read. `parseLoop_eq_parseFrom` and
`parseLoop_first_eq_parseFrom` show it computes what `parseLoop` computes. -/
def parseFrom : Nat → List Nat → List SteamPlayerInfo → Outcome (List SteamPlayerInfo)
  | 0, _, players => .ret players none
  | _ + 1, [], _ => .panic
  | k + 1, _ :: b, players =>
    let nul := IndexByte b 0
    match slice b 0 nul, slice b (nul + 1) (nul + 5), slice b (nul + 5) (nul + 9) with
    | some name, some score, some duration =>
      match getDuration duration, Uint32 score with
      | some (seconds, timeformatted), some sc =>
        parseFrom k (b.drop (nul + 9).toNat)
          (players ++ [⟨name, int32 sc, seconds, timeformatted⟩])
      | _, _ => .panic
    | _, _, _ => .panic

/-! ## Wire layout of a well-formed response -/

/-- One player record as laid out on the wire: the reserved/index byte, the
name bytes, the 4 score bytes and the 4 duration bytes. -/
structure RawRecord where
  idx : Nat
  name : List Nat
  score : List Nat
  duration : List Nat
  deriving DecidableEq, Repr

namespace RawRecord

/-- The bytes after the index byte: name, null terminator, score, duration. -/
def body (r : RawRecord) : List Nat := r.name ++ 0 :: (r.score ++ r.duration)

/-- The bytes of the record. -/
def encode (r : RawRecord) : List Nat := r.idx :: r.body

/-- Correct layout: no null byte inside the name, 4 score bytes, 4 duration bytes. -/
def WellFormed (r : RawRecord) : Prop :=
  0 ∉ r.name ∧ r.score.length = 4 ∧ r.duration.length = 4

instance (r : RawRecord) : Decidable r.WellFormed :=
  inferInstanceAs (Decidable (0 ∉ r.name ∧ r.score.length = 4 ∧ r.duration.length = 4))

end RawRecord

/-- The bytes of a sequence of records, one after the other. -/
def encodeAll (rs : List RawRecord) : List Nat := (rs.map RawRecord.encode).flatten

/-- Four bytes read as a little-endian two's-complement 32-bit integer. -/
def signedLE32 (b : List Nat) : Int :=
  match b with
  | [b0, b1, b2, b3] =>
    let u : Nat := b0 + 256 * b1 + 65536 * b2 + 16777216 * b3
    if u < 2147483648 then (u : Int) else (u : Int) - 4294967296
  | _ => 0

/-- The decoded record `p` carries the fields of the wire record `r`. -/
def Matches (r : RawRecord) (p : SteamPlayerInfo) : Prop :=
  p.Name = r.name ∧ p.Score = signedLE32 r.score ∧
    getDuration r.duration = some (p.TimeConnectedSecs, p.TimeConnectedTot)

/-- The bytes `bs` begin with `n` complete, correctly laid-out records. -/
def HoldsRecords (n : Nat) (bs : List Nat) : Prop :=
  ∃ (rs : List RawRecord) (tl : List Nat),
    rs.length = n ∧ (∀ r ∈ rs, r.WellFormed) ∧ bs = encodeAll rs ++ tl

/-- Text of a whole number of seconds as a duration: hours, minutes and
seconds, leading units that are zero omitted, as in `2m5s`. -/
def renderSeconds (n : Nat) : String :=
  let h := n / 3600
  let m := n / 60 % 60
  let s := n % 60
  if 0 < h then toString h ++ "h" ++ toString m ++ "m" ++ toString s ++ "s"
  else if 0 < m then toString m ++ "m" ++ toString s ++ "s"
  else toString s ++ "s"

/-! ## The transport session -/

/-- What the network does during one call of `getPlayerInfo`: the outcome of
each socket operation, in program order. A failing operation carries the
message of its error; a write is given the bytes written, and the second read
the request it answers. -/
structure Session where
  dial : Option String
  write1 : List Nat → Option String
  read1 : Except String (List Nat)
  write2 : List Nat → Option String
  read2 : List Nat → Except String (List Nat)

/-- A buffer of `size` zero bytes after `conn.Read` stored a datagram into it. -/
def readInto (size : Nat) (dgram : List Nat) : List Nat :=
  dgram.take size ++ List.replicate (size - (dgram.take size).length) 0

/-- Translation of `getPlayerInfo`. The constant `maxPacketSize` is declared
outside the given sources and is a parameter; logging is not modelled. -/
def getPlayerInfo (maxPacketSize : Nat) (net : Session) : Outcome (List Nat) :=
  match net.dial with
  | some e => .ret [] (some (.ErrHostConnection e))
  | none =>
    match net.write1 playerChallengeReq with
    | some e => .ret [] (some (.ErrDataTransmit e))
    | none =>
      match net.read1 with
      | .error e => .ret [] (some (.ErrDataTransmit e))
      | .ok dgram1 =>
        let challengeNumResp := readInto maxPacketSize dgram1
        if !HasPrefix challengeNumResp expectedPlayerRespHeader then
          .ret [] (some .ErrChallengeResponse)
        else
          match slice (TrimLeft challengeNumResp headerStr) 1 5 with
          | none => .panic
          | some challengeNum =>
            let request := [0xFF, 0xFF, 0xFF, 0xFF, 0x55] ++ challengeNum
            match net.write2 request with
            | some e => .ret [] (some (.ErrDataTransmit e))
            | none =>
              match net.read2 request with
              | .error e => .ret [] (some (.ErrDataTransmit e))
              | .ok dgram2 => .ret (dgram2.take maxPacketSize) none

/-- Translation of `GetPlayersForServer`. -/
def GetPlayersForServer (maxPacketSize : Nat) (net : Session) :
    Outcome (List SteamPlayerInfo) :=
  match getPlayerInfo maxPacketSize net with
  | .panic => .panic
  | .ret _ (some err) => .ret [] (some err)
  | .ret pi none =>
    match parsePlayerInfo pi with
    | .panic => .panic
    | .ret _ (some err) => .ret [] (some err)
    | .ret players none => .ret players none

/-! ## The retry orchestrator -/

abbrev Host := String

/-- The pair `(r, err)` a call of `GetPlayersForServer` returned. -/
abbrev QueryResult := List SteamPlayerInfo × Option SteamError

/-- Modelled from the spec: the helper `removeFailedHost` is declared outside
the given sources; the spec has a host that produced an outcome "removed from
RetrySet", the set of hosts still outstanding. -/
def removeFailedHost (failed : List Host) (host : Host) : List Host :=
  failed.filter (fun x => x ≠ host)

/-- The variables shared by the goroutines of `RetryFailedPlayersReq`: the
result map `m` and the outstanding hosts `f`, together with two counters kept
for the statements: `calls h`, the number of invocations of
`GetPlayersForServer` on `h` so far, and `writes h`, the number of assignments
`m[h] = r` so far. -/
structure RetryState where
  m : Host → Option (List SteamPlayerInfo)
  f : List Host
  calls : Host → Nat
  writes : Host → Nat

/-- The body of one goroutine, for host `h`. `query h n` is what the
`(n+1)`-th invocation `GetPlayersForServer(h, QueryTimeout)` returns: the
successive attempts on a host are a sequence of outcomes. (An invocation that
panics ends the whole program and has no outcome.) -/
def worker (query : Host → Nat → QueryResult) (s : RetryState) (h : Host) : RetryState :=
  let res := query h (s.calls h)
  let s1 : RetryState := { s with calls := Function.update s.calls h (s.calls h + 1) }
  if res.2 ≠ none ∧ res.2 ≠ some .ErrNoPlayers then s1
  else
    { s1 with
      m := Function.update s1.m h (some res.1)
      f := removeFailedHost s1.f h
      writes := Function.update s1.writes h (s1.writes h + 1) }

/-- One round: a goroutine is started for each host of `f` as it stands when
the `range` loop begins (every goroutine of the round is taken to be started
before the first one finishes); the mutex makes their critical sections take
effect one after the other, in the order `order` puts the started hosts in;
`wg.Wait()` ends the round. -/
def round (query : Host → Nat → QueryResult) (order : List Host → List Host)
    (s : RetryState) : RetryState :=
  (order s.f).foldl (worker query) s

/-- The loop `for i := 0; i < retrycount; i++`, with `n` iterations left. -/
def retryLoop (query : Host → Nat → QueryResult) (sched : Nat → List Host → List Host)
    (failed : List Host) : Nat → Nat → RetryState → RetryState
  | 0, _, s => s
  | n + 1, i, s =>
    retryLoop query sched failed n (i + 1)
      (round query (sched i) (if i = 0 then { s with f := failed } else s))

/-- The state on entry: an empty map, `f` nil, nothing called or written. -/
def initState : RetryState :=
  { m := fun _ => none, f := [], calls := fun _ => 0, writes := fun _ => 0 }

/-- The shared state after the first `rounds` iterations of the loop. -/
def stateAfter (query : Host → Nat → QueryResult) (sched : Nat → List Host → List Host)
    (failed : List Host) (rounds : Nat) : RetryState :=
  retryLoop query sched failed rounds 0 initState

/-- Translation of `RetryFailedPlayersReq`: the map `m` when the loop is over. -/
def RetryFailedPlayersReq (query : Host → Nat → QueryResult)
    (sched : Nat → List Host → List Host) (failed : List Host) (retrycount : Int) :
    Host → Option (List SteamPlayerInfo) :=
  (stateAfter query sched failed retrycount.toNat).m

/-- An error after which the orchestrator retries: any error but `ErrNoPlayers`. -/
def Retryable (res : QueryResult) : Prop :=
  res.2 ≠ none ∧ res.2 ≠ some .ErrNoPlayers

instance (res : QueryResult) : Decidable (Retryable res) :=
  inferInstanceAs (Decidable (res.2 ≠ none ∧ res.2 ≠ some .ErrNoPlayers))

/-! ## The orchestrator seen from one host -/

/-- What the shared state says about one host: its map entry, the number of
queries made for it, the number of writes of its entry, and how often it
occurs among the outstanding hosts. -/
structure HostView where
  entry : Option (List SteamPlayerInfo)
  calls : Nat
  writes : Nat
  pending : Nat
  deriving DecidableEq

/-- The view of host `h` in state `s`. -/
def view (h : Host) (s : RetryState) : HostView :=
  ⟨s.m h, s.calls h, s.writes h, s.f.count h⟩

/-- The effect on the view of `h` of one goroutine run for `h`. -/
def stepView (query : Host → Nat → QueryResult) (h : Host) (v : HostView) : HostView :=
  if Retryable (query h v.calls) then { v with calls := v.calls + 1 }
  else ⟨some (query h v.calls).1, v.calls + 1, v.writes + 1, 0⟩

/-- The effect on the view of `h` of one round: one goroutine per pending occurrence. -/
def roundView (query : Host → Nat → QueryResult) (h : Host) (v : HostView) : HostView :=
  (stepView query h)^[v.pending] v

/-! ## Sample data -/

/-- Wire record of a player "Alice", score 10, connected 60.0 s. -/
def aliceRaw : RawRecord :=
  ⟨0, [65, 108, 105, 99, 101], [10, 0, 0, 0], [0x00, 0x00, 0x70, 0x42]⟩

/-- Wire record of a player "Bob", score -3, connected 5.5 s. -/
def bobRaw : RawRecord :=
  ⟨1, [66, 111, 98], [0xFD, 0xFF, 0xFF, 0xFF], [0x00, 0x00, 0xB0, 0x40]⟩

/-- The decoded record ("Alice", 10, 60.0 s). -/
def alice : SteamPlayerInfo := ⟨[65, 108, 105, 99, 101], 10, ⟨0x42700000⟩, "1m0s"⟩

/-- The decoded record ("Bob", -3, 5.5 s). -/
def bob : SteamPlayerInfo := ⟨[66, 111, 98], -3, ⟨0x40B00000⟩, "5s"⟩

/-- A response announcing two players whose second name has no terminating null. -/
def truncatedBuf : List Nat :=
  [0xFF, 0xFF, 0xFF, 0xFF, 0x44] ++ 2 :: (aliceRaw.encode ++ [1, 66, 111, 98])

/-- The two-record response for "Alice" and "Bob". -/
def samplePacket : List Nat :=
  [0xFF, 0xFF, 0xFF, 0xFF, 0x44] ++ 2 :: encodeAll [aliceRaw, bobRaw]

/-- A session in which every socket operation succeeds: the server answers the
challenge request with the token `01 02 03 04` and the second request with
`samplePacket`. -/
def okSession : Session :=
  { dial := none
    write1 := fun _ => none
    read1 := .ok [0xFF, 0xFF, 0xFF, 0xFF, 0x41, 1, 2, 3, 4]
    write2 := fun _ => none
    read2 := fun _ => .ok samplePacket }

/-- A session whose first read runs into the deadline. -/
def timeoutSession : Session := { okSession with read1 := .error "i/o timeout" }

/-- A session in which every socket operation succeeds and the final response
is the datagram `truncatedBuf`. -/
def truncatedSession : Session := { okSession with read2 := fun _ => .ok truncatedBuf }

/-- The goroutines of a round take effect in the order they were started. -/
def inOrder : Nat → List Host → List Host := fun _ l => l

/-- A remote none of whose hosts ever answers in time. -/
def alwaysTimeout : Host → Nat → QueryResult :=
  fun _ _ => ([], some (.ErrDataTransmit "i/o timeout"))

/-- A remote all of whose hosts answer that they have no players. -/
def alwaysEmpty : Host → Nat → QueryResult :=
  fun _ _ => ([], some .ErrNoPlayers)

/-- A remote failing the first attempt on a host with a transmission error and
answering every later one with the players Alice and Bob. -/
def failThenAnswer : Host → Nat → QueryResult :=
  fun _ n => if n = 0 then ([], some (.ErrDataTransmit "i/o timeout")) else ([alice, bob], none)

/-- A remote answering the first attempt on a host with Alice and every later
one with Bob. -/
def aliceThenBob : Host → Nat → QueryResult :=
  fun _ n => if n = 0 then ([alice], none) else ([bob], none)

/-! ## Lemmas on the library functions -/

theorem containsRune_headerStr (r : Nat) :
    containsRune headerStr r = decide (r = RuneError) := by
  have h : runesOf headerStr.length headerStr = [RuneError, RuneError, RuneError, RuneError] := by
    decide
  unfold containsRune
  rw [h]
  by_cases hr : r = RuneError
  · subst hr; decide
  · simp [hr]

theorem TrimLeft_chunk (c : Nat) (hc : c < 0x80) (t : List Nat) :
    TrimLeft (0xFF :: 0xFF :: 0xFF :: 0xFF :: c :: t) headerStr = c :: t := by
  have hne : c ≠ RuneError := by unfold RuneError; omega
  have hFF : ∀ (k : Nat) (u : List Nat), trimLeftUnicode headerStr (k + 1) (0xFF :: u)
      = trimLeftUnicode headerStr k u := by
    intro k u
    simp [trimLeftUnicode, containsRune_headerStr, RuneSelf, DecodeRune]
  unfold TrimLeft
  simp only [List.length_cons]
  rw [hFF, hFF, hFF, hFF]
  simp [trimLeftUnicode, containsRune_headerStr, RuneSelf, hc, hne]

theorem HasPrefix_iff (s pre : List Nat) : HasPrefix s pre = true ↔ ∃ t, s = pre ++ t := by
  unfold HasPrefix
  rw [List.isPrefixOf_iff_prefix]
  constructor
  · rintro ⟨t, ht⟩; exact ⟨t, ht.symm⟩
  · rintro ⟨t, ht⟩; exact ⟨t, ht.symm⟩

theorem slice_nat (b : List Nat) (lo hi : Nat) (h1 : lo ≤ hi) (h2 : hi ≤ b.length) :
    slice b (lo : Int) (hi : Int) = some ((b.take hi).drop lo) := by
  unfold slice
  have : (0 : Int) ≤ lo ∧ (lo : Int) ≤ hi ∧ (hi : Int) ≤ (b.length : Int) := by omega
  rw [if_pos this]
  simp

theorem slice_isSome (b : List Nat) (lo hi : Int) (l : List Nat) (h : slice b lo hi = some l) :
    0 ≤ lo ∧ lo ≤ hi ∧ hi ≤ (b.length : Int) ∧ l = (b.take hi.toNat).drop lo.toNat := by
  unfold slice at h
  split at h
  · rename_i hc
    simp only [Option.some.injEq] at h
    exact ⟨hc.1, hc.2.1, hc.2.2, h.symm⟩
  · simp at h

theorem sliceFrom_nat (b : List Nat) (lo : Nat) (h : lo ≤ b.length) :
    sliceFrom b (lo : Int) = some (b.drop lo) := by
  unfold sliceFrom
  rw [slice_nat b lo b.length h le_rfl]
  simp

theorem IndexByte_append (name rest : List Nat) (h : 0 ∉ name) :
    IndexByte (name ++ 0 :: rest) 0 = (name.length : Int) := by
  have hi : (name ++ 0 :: rest).indexOf 0 = name.length := by
    rw [List.indexOf_append_of_not_mem h]
    simp
  unfold IndexByte
  rw [hi]
  simp

theorem parsePlayerInfo_header (n : Nat) (rest : List Nat) :
    parsePlayerInfo (0xFF :: 0xFF :: 0xFF :: 0xFF :: 0x44 :: n :: rest) =
      if n = 0 then .ret [] (some .ErrNoPlayers)
      else parseLoop (0x44 :: n :: rest) n 0 [] 3 [] := by
  have hp : HasPrefix (0xFF :: 0xFF :: 0xFF :: 0xFF :: 0x44 :: n :: rest)
      expectedPlayerChunkHeader = true := by
    rw [HasPrefix_iff]; exact ⟨n :: rest, rfl⟩
  unfold parsePlayerInfo
  rw [hp, TrimLeft_chunk 0x44 (by norm_num)]
  simp [index]

theorem sliceFrom_succ (b : List Nat) (s : Nat) :
    (s < b.length ∧ ∃ x, b.drop s = x :: b.drop (s + 1) ∧
        sliceFrom b ((s : Int) + 1) = some (b.drop (s + 1))) ∨
      (b.drop s = [] ∧ sliceFrom b ((s : Int) + 1) = none) := by
  by_cases h : s < b.length
  · left
    refine ⟨h, b[s], ?_, ?_⟩
    · exact List.drop_eq_getElem_cons h
    · have := sliceFrom_nat b (s + 1) h
      simpa using this
  · right
    refine ⟨List.drop_eq_nil_of_le (by omega), ?_⟩
    unfold sliceFrom slice
    rw [if_neg]
    omega

theorem parseLoop_eq_parseFrom (u : List Nat) (k : Nat) :
    ∀ (i : Nat) (b : List Nat) (s : Nat) (players : List SteamPlayerInfo), i ≠ 0 →
      parseLoop u k i b (s : Int) players = parseFrom k (b.drop s) players := by
  induction k with
  | zero => intro i b s players _; simp [parseLoop, parseFrom]
  | succ k ih =>
    intro i b s players hi
    rw [parseLoop, if_neg hi]
    rcases sliceFrom_succ b s with ⟨_, x, hx, hs⟩ | ⟨hx, hs⟩
    · rw [hx, hs, parseFrom]
      simp only []
      cases h1 : slice (List.drop (s + 1) b) 0 (IndexByte (List.drop (s + 1) b) 0) <;>
      cases h2 : slice (List.drop (s + 1) b) (IndexByte (List.drop (s + 1) b) 0 + 1)
        (IndexByte (List.drop (s + 1) b) 0 + 5) <;>
      cases h3 : slice (List.drop (s + 1) b) (IndexByte (List.drop (s + 1) b) 0 + 5)
        (IndexByte (List.drop (s + 1) b) 0 + 9) <;> simp only []
      rename_i name score duration
      have hn := (slice_isSome _ _ _ _ h1).2.1
      have hcast : IndexByte (List.drop (s + 1) b) 0 + 9
          = (((IndexByte (List.drop (s + 1) b) 0 + 9).toNat : Nat) : Int) := by omega
      cases h4 : getDuration duration <;> cases h5 : Uint32 score <;> simp only []
      obtain ⟨m, hm⟩ : ∃ m : Nat, IndexByte (List.drop (s + 1) b) 0 + 9 = (m : Int) := ⟨_, hcast⟩
      rw [hm, ih (i + 1) _ _ _ (by omega)]
      simp
    · rw [hx, hs, parseFrom]

theorem parseLoop_first_eq_parseFrom (u : List Nat) (k : Nat) (b : List Nat) (s : Nat)
    (players : List SteamPlayerInfo) :
    parseLoop u k 0 b ((s : Int) + 1) players = parseFrom k (u.drop s) players := by
  cases k with
  | zero => simp [parseLoop, parseFrom]
  | succ k =>
    rw [parseLoop, if_pos rfl]
    rcases sliceFrom_succ u s with ⟨_, x, hx, hs⟩ | ⟨hx, hs⟩
    · rw [hx, hs, parseFrom]
      simp only []
      cases h1 : slice (List.drop (s + 1) u) 0 (IndexByte (List.drop (s + 1) u) 0) <;>
      cases h2 : slice (List.drop (s + 1) u) (IndexByte (List.drop (s + 1) u) 0 + 1)
        (IndexByte (List.drop (s + 1) u) 0 + 5) <;>
      cases h3 : slice (List.drop (s + 1) u) (IndexByte (List.drop (s + 1) u) 0 + 5)
        (IndexByte (List.drop (s + 1) u) 0 + 9) <;> simp only []
      rename_i name score duration
      have hn := (slice_isSome _ _ _ _ h1).2.1
      have hcast : IndexByte (List.drop (s + 1) u) 0 + 9
          = (((IndexByte (List.drop (s + 1) u) 0 + 9).toNat : Nat) : Int) := by omega
      cases h4 : getDuration duration <;> cases h5 : Uint32 score <;> simp only []
      obtain ⟨m, hm⟩ : ∃ m : Nat, IndexByte (List.drop (s + 1) u) 0 + 9 = (m : Int) := ⟨_, hcast⟩
      rw [hm, parseLoop_eq_parseFrom u k (0 + 1) _ _ _ (by omega)]
      simp
    · rw [hx, hs, parseFrom]

theorem parsePlayerInfo_eq_parseFrom (n : Nat) (rest : List Nat) (hn : n ≠ 0) :
    parsePlayerInfo (0xFF :: 0xFF :: 0xFF :: 0xFF :: 0x44 :: n :: rest) =
      parseFrom n rest [] := by
  rw [parsePlayerInfo_header, if_neg hn]
  have := parseLoop_first_eq_parseFrom (0x44 :: n :: rest) n [] 2 []
  simpa using this

theorem length_four (l : List Nat) (h : l.length = 4) : ∃ a b c d, l = [a, b, c, d] := by
  match l, h with
  | [a, b, c, d], _ => exact ⟨a, b, c, d, rfl⟩

theorem record_slices (name score duration rest : List Nat) (h0 : 0 ∉ name)
    (hs : score.length = 4) (hd : duration.length = 4) :
    IndexByte (name ++ 0 :: (score ++ duration ++ rest)) 0 = (name.length : Int) ∧
    slice (name ++ 0 :: (score ++ duration ++ rest)) 0 (name.length : Int) = some name ∧
    slice (name ++ 0 :: (score ++ duration ++ rest)) ((name.length : Int) + 1)
      ((name.length : Int) + 5) = some score ∧
    slice (name ++ 0 :: (score ++ duration ++ rest)) ((name.length : Int) + 5)
      ((name.length : Int) + 9) = some duration ∧
    (name ++ 0 :: (score ++ duration ++ rest)).drop (name.length + 9) = rest := by
  obtain ⟨s0, s1, s2, s3, rfl⟩ := length_four score hs
  obtain ⟨d0, d1, d2, d3, rfl⟩ := length_four duration hd
  refine ⟨IndexByte_append _ _ h0, ?_, ?_, ?_, ?_⟩
  · have := slice_nat (name ++ 0 :: ([s0, s1, s2, s3] ++ [d0, d1, d2, d3] ++ rest)) 0
      name.length (by omega) (by simp)
    simpa using this
  · have := slice_nat (name ++ 0 :: ([s0, s1, s2, s3] ++ [d0, d1, d2, d3] ++ rest))
      (name.length + 1) (name.length + 5) (by omega) (by simp)
    rw [show ((name.length : Int) + 1) = ((name.length + 1 : Nat) : Int) by push_cast; ring,
      show ((name.length : Int) + 5) = ((name.length + 5 : Nat) : Int) by push_cast; ring, this]
    congr 1
    rw [List.take_append_eq_append_take, List.drop_append_eq_append_drop]
    simp [List.take_of_length_le]
  · have := slice_nat (name ++ 0 :: ([s0, s1, s2, s3] ++ [d0, d1, d2, d3] ++ rest))
      (name.length + 5) (name.length + 9) (by omega) (by simp)
    rw [show ((name.length : Int) + 5) = ((name.length + 5 : Nat) : Int) by push_cast; ring,
      show ((name.length : Int) + 9) = ((name.length + 9 : Nat) : Int) by push_cast; ring, this]
    congr 1
    rw [List.take_append_eq_append_take, List.drop_append_eq_append_drop]
    simp [List.take_of_length_le]
  · rw [List.drop_append_eq_append_drop]
    simp

theorem signedLE32_eq (b0 b1 b2 b3 : Nat) (h0 : b0 < 256) (h1 : b1 < 256) (h2 : b2 < 256)
    (h3 : b3 < 256) :
    ∃ u, Uint32 [b0, b1, b2, b3] = some u ∧ int32 u = signedLE32 [b0, b1, b2, b3] := by
  refine ⟨_, rfl, ?_⟩
  unfold int32 signedLE32
  simp only [Nat.mod_eq_of_lt h0, Nat.mod_eq_of_lt h1, Nat.mod_eq_of_lt h2, Nat.mod_eq_of_lt h3]
  have hlt : b0 + b1 * 2 ^ 8 + b2 * 2 ^ 16 + b3 * 2 ^ 24 < 2 ^ 32 := by omega
  rw [Nat.mod_mod, Nat.mod_eq_of_lt hlt]
  have he : b0 + b1 * 2 ^ 8 + b2 * 2 ^ 16 + b3 * 2 ^ 24
      = b0 + 256 * b1 + 65536 * b2 + 16777216 * b3 := by omega
  rw [he]
  norm_num

theorem getDuration_isSome (d0 d1 d2 d3 : Nat) :
    ∃ f t, getDuration [d0, d1, d2, d3] = some (f, t) := by
  unfold getDuration Uint32
  exact ⟨_, _, rfl⟩

/-- What the loop stores for a wire record, before any assumption on byte values. -/
theorem parseFrom_append (rs : List RawRecord) :
    ∀ (tl : List Nat) (players : List SteamPlayerInfo), (∀ r ∈ rs, r.WellFormed) →
      ∃ ps, (∀ k, parseFrom (rs.length + k) (encodeAll rs ++ tl) players
            = parseFrom k tl (players ++ ps)) ∧
        List.Forall₂ (fun r p => p.Name = r.name ∧
          (∃ u, Uint32 r.score = some u ∧ p.Score = int32 u) ∧
          getDuration r.duration = some (p.TimeConnectedSecs, p.TimeConnectedTot)) rs ps := by
  induction rs with
  | nil =>
    intro tl players _
    exact ⟨[], by simp [encodeAll], List.Forall₂.nil⟩
  | cons r rs ih =>
    intro tl players hwf
    obtain ⟨h0, hs, hd⟩ := hwf r (List.mem_cons_self _ _)
    obtain ⟨s0, s1, s2, s3, hsc⟩ := length_four r.score hs
    obtain ⟨d0, d1, d2, d3, hdu⟩ := length_four r.duration hd
    have hu : Uint32 [s0, s1, s2, s3] = some ((s0 % 256 + (s1 % 256) * 2 ^ 8
        + (s2 % 256) * 2 ^ 16 + (s3 % 256) * 2 ^ 24) % 2 ^ 32) := rfl
    generalize (s0 % 256 + (s1 % 256) * 2 ^ 8 + (s2 % 256) * 2 ^ 16
      + (s3 % 256) * 2 ^ 24) % 2 ^ 32 = u at hu
    obtain ⟨f, t, hft⟩ := getDuration_isSome d0 d1 d2 d3
    obtain ⟨ps, hps, hall⟩ := ih tl (players ++ [⟨r.name, int32 u, f, t⟩])
      (fun r' hr' => hwf r' (List.mem_cons_of_mem _ hr'))
    obtain ⟨e1, e2, e3, e4, e5⟩ := record_slices r.name r.score r.duration (encodeAll rs ++ tl)
      h0 hs hd
    have henc : encodeAll (r :: rs) ++ tl
        = r.idx :: (r.name ++ 0 :: (r.score ++ r.duration ++ (encodeAll rs ++ tl))) := by
      simp [encodeAll, RawRecord.encode, RawRecord.body]
    refine ⟨⟨r.name, int32 u, f, t⟩ :: ps, ?_, List.Forall₂.cons ⟨rfl, ⟨u, ?_, rfl⟩, ?_⟩ hall⟩
    · intro k
      rw [henc, List.length_cons, show rs.length + 1 + k = (rs.length + k) + 1 by omega,
        parseFrom]
      simp only [e1, e2, e3, e4]
      rw [hsc, hdu, hu, hft]
      simp only []
      rw [← hsc, ← hdu]
      have hcast : ((r.name.length : Int) + 9).toNat = r.name.length + 9 := by omega
      rw [hcast, e5, hps]
      simp
    · rw [hsc]; exact hu
    · rw [hdu]; exact hft

theorem parseFrom_records (rs : List RawRecord) (tl : List Nat)
    (hwf : ∀ r ∈ rs, r.WellFormed) (hby : ∀ r ∈ rs, ∀ x ∈ r.score, x < 256) :
    ∃ ps, parseFrom rs.length (encodeAll rs ++ tl) [] = .ret ps none ∧
      List.Forall₂ Matches rs ps := by
  obtain ⟨ps, hps, hall⟩ := parseFrom_append rs tl [] hwf
  refine ⟨ps, by simpa [parseFrom] using hps 0, ?_⟩
  clear hps
  induction hall with
  | nil => exact List.Forall₂.nil
  | @cons r p rs ps hrp _ ih =>
    refine List.Forall₂.cons ?_ (ih (fun r' hr' => hwf r' (List.mem_cons_of_mem _ hr'))
      (fun r' hr' => hby r' (List.mem_cons_of_mem _ hr')))
    obtain ⟨hname, ⟨u, hu, hscore⟩, hdur⟩ := hrp
    obtain ⟨h0, hs, hd⟩ := hwf r (List.mem_cons_self _ _)
    obtain ⟨s0, s1, s2, s3, hsc⟩ := length_four r.score hs
    have hbs := hby r (List.mem_cons_self _ _)
    rw [hsc] at hbs hu
    obtain ⟨u', hu', hint⟩ := signedLE32_eq s0 s1 s2 s3 (hbs s0 (by simp)) (hbs s1 (by simp))
      (hbs s2 (by simp)) (hbs s3 (by simp))
    rw [hu] at hu'
    simp only [Option.some.injEq] at hu'
    subst hu'
    exact ⟨hname, by rw [hscore, hsc, hint], hdur⟩

theorem holds_parseFrom (n : Nat) (bs : List Nat) (h : HoldsRecords n bs) :
    parseFrom n bs [] ≠ .panic := by
  obtain ⟨rs, tl, hlen, hwf, rfl⟩ := h
  obtain ⟨ps, hps, _⟩ := parseFrom_append rs tl [] hwf
  have := hps 0
  simp only [Nat.add_zero, parseFrom, hlen] at this
  rw [this]
  simp

theorem indexOf_decomp (b : List Nat) (h : b.indexOf 0 < b.length) :
    ∃ pre post, b = pre ++ 0 :: post ∧ 0 ∉ pre ∧ pre.length = b.indexOf 0 := by
  induction b with
  | nil => simp at h
  | cons x b ih =>
    by_cases hx : x = 0
    · subst hx
      exact ⟨[], b, rfl, by simp, by simp⟩
    · have hi : (x :: b).indexOf 0 = b.indexOf 0 + 1 := by
        rw [List.indexOf_cons_ne _ hx]
      rw [hi] at h
      obtain ⟨pre, post, h1, h2, h3⟩ := ih (by simpa using h)
      refine ⟨x :: pre, post, by rw [h1]; rfl, ?_, by simp [hi, h3]⟩
      simp only [List.mem_cons, not_or]
      exact ⟨fun h0 => hx h0.symm, h2⟩

theorem slices_record (b name score duration : List Nat)
    (h1 : slice b 0 (IndexByte b 0) = some name)
    (h2 : slice b (IndexByte b 0 + 1) (IndexByte b 0 + 5) = some score)
    (h3 : slice b (IndexByte b 0 + 5) (IndexByte b 0 + 9) = some duration) :
    0 ∉ name ∧ score.length = 4 ∧ duration.length = 4 ∧
      b = name ++ 0 :: (score ++ duration ++ b.drop (IndexByte b 0 + 9).toNat) := by
  have hnul := (slice_isSome _ _ _ _ h1).2.1
  have hlen := (slice_isSome _ _ _ _ h3).2.2.1
  have hidx : b.indexOf 0 < b.length := by
    by_contra hc
    unfold IndexByte at hnul
    rw [if_neg hc] at hnul
    omega
  have hval : IndexByte b 0 = (b.indexOf 0 : Int) := by
    unfold IndexByte; rw [if_pos hidx]
  obtain ⟨pre, post, hb, hpre, hplen⟩ := indexOf_decomp b hidx
  rw [hval, ← hplen] at h1 h2 h3 hlen ⊢
  have hpost : 8 ≤ post.length := by
    rw [hb] at hlen
    simp at hlen
    omega
  have hsplit : post = post.take 4 ++ (post.drop 4).take 4 ++ post.drop 8 := by
    rw [List.append_assoc]
    conv_lhs => rw [← List.take_append_drop 4 post]
    congr 1
    conv_lhs => rw [← List.take_append_drop 4 (post.drop 4)]
    simp
  have hb2 : b = pre ++ 0 :: (post.take 4 ++ (post.drop 4).take 4 ++ post.drop 8) := by
    rw [← hsplit]; exact hb
  obtain ⟨_, e2, e3, e4, e5⟩ := record_slices pre (post.take 4) ((post.drop 4).take 4)
    (post.drop 8) hpre (by simp; omega) (by simp; omega)
  rw [← hb2] at e2 e3 e4 e5
  rw [e2] at h1
  rw [e3] at h2
  rw [e4] at h3
  simp only [Option.some.injEq] at h1 h2 h3
  subst h1 h2 h3
  have hcast : ((pre.length : Int) + 9).toNat = pre.length + 9 := by omega
  rw [hcast, e5]
  exact ⟨hpre, by simp; omega, by simp; omega, hb2⟩

theorem parseFrom_holds (k : Nat) :
    ∀ (region : List Nat) (players : List SteamPlayerInfo),
      parseFrom k region players ≠ .panic → HoldsRecords k region := by
  induction k with
  | zero =>
    intro region players _
    exact ⟨[], region, rfl, by simp, by simp [encodeAll]⟩
  | succ k ih =>
    intro region players hne
    cases region with
    | nil => simp [parseFrom] at hne
    | cons x b =>
      rw [parseFrom] at hne
      cases h1 : slice b 0 (IndexByte b 0) with
      | none => simp [h1] at hne
      | some name =>
      cases h2 : slice b (IndexByte b 0 + 1) (IndexByte b 0 + 5) with
      | none => simp [h1, h2] at hne
      | some score =>
      cases h3 : slice b (IndexByte b 0 + 5) (IndexByte b 0 + 9) with
      | none => simp [h1, h2, h3] at hne
      | some duration =>
      rw [h1, h2, h3] at hne
      simp only [] at hne
      cases h4 : getDuration duration with
      | none => simp [h4] at hne
      | some ft =>
      cases h5 : Uint32 score with
      | none => simp [h4, h5] at hne
      | some sc =>
      rw [h4, h5] at hne
      simp only [] at hne
      obtain ⟨rs, tl, hlen, hwf, hreg⟩ := ih _ _ hne
      obtain ⟨g0, g1, g2, g3⟩ := slices_record b name score duration h1 h2 h3
      refine ⟨⟨x, name, score, duration⟩ :: rs, tl, by simp [hlen], ?_, ?_⟩
      · intro r hr
        rcases List.mem_cons.mp hr with rfl | hr
        · exact ⟨g0, g1, g2⟩
        · exact hwf r hr
      · rw [hreg] at g3
        rw [g3]
        simp [encodeAll, RawRecord.encode, RawRecord.body]

/-- Complete records followed by a record whose name has no terminating null
do not hold that many complete records. -/
theorem not_holdsRecords_unterminated (rs : List RawRecord) (idx : Nat) (name : List Nat)
    (hwf : ∀ r ∈ rs, r.WellFormed) (h0 : 0 ∉ name) :
    ¬ HoldsRecords (rs.length + 1) (encodeAll rs ++ idx :: name) := by
  intro h
  apply holds_parseFrom _ _ h
  obtain ⟨ps, hps, _⟩ := parseFrom_append rs (idx :: name) [] hwf
  rw [hps 1, parseFrom]
  have hi : IndexByte name 0 = -1 := by
    unfold IndexByte
    rw [if_neg]
    rw [List.indexOf_eq_length.mpr h0]
    exact Nat.lt_irrefl _
  have hsl : slice name 0 (IndexByte name 0) = none := by
    rw [hi]
    unfold slice
    rw [if_neg]
    omega
  simp only [hsl]

/-! ## The decoder: `parsePlayerInfo` -/

/-- C1: on the header `FF FF FF FF 44`, a count byte `n` with `1 ≤ n ≤ 255` and
exactly `n` correctly laid-out records, `parsePlayerInfo` returns no error and
exactly `n` player records in input order, the i-th carrying the i-th name, the
i-th score read as a signed little-endian 32-bit integer, and the duration
fields `getDuration` yields for the i-th record's duration bytes. -/
theorem parsePlayerInfo_well_formed (rs : List RawRecord) (n : Nat) (hlen : rs.length = n)
    (h1 : 1 ≤ n) (_h255 : n ≤ 255) (hwf : ∀ r ∈ rs, r.WellFormed)
    (hby : ∀ r ∈ rs, ∀ x ∈ r.score, x < 256) :
    ∃ players,
      parsePlayerInfo ([0xFF, 0xFF, 0xFF, 0xFF, 0x44] ++ n :: encodeAll rs)
        = .ret players none ∧
      players.length = n ∧ List.Forall₂ Matches rs players := by
  obtain ⟨ps, hps, hall⟩ := parseFrom_records rs [] hwf hby
  refine ⟨ps, ?_, by rw [← hall.length_eq, hlen], hall⟩
  have := parsePlayerInfo_eq_parseFrom n (encodeAll rs) (by omega)
  simp only [List.cons_append, List.nil_append]
  rw [this, ← hlen]
  simpa using hps


theorem parsePlayerInfo_well_formed_witness :
    ∃ players,
      parsePlayerInfo ([0xFF, 0xFF, 0xFF, 0xFF, 0x44] ++ 2 :: encodeAll [aliceRaw, bobRaw])
        = .ret players none ∧
      players.length = 2 ∧ List.Forall₂ Matches [aliceRaw, bobRaw] players :=
  parsePlayerInfo_well_formed [aliceRaw, bobRaw] 2 rfl (by decide) (by decide) (by decide)
    (by decide)

/-- On the header `FF FF FF FF 44` and a non-zero count byte `n` followed by
bytes that do not hold `n` complete records, `parsePlayerInfo` is aborted by a
run-time panic, for a buffer whose capacity equals its length, as is the buffer
`getPlayerInfo` allocates with `make([]byte, numread)`. -/
theorem parsePlayerInfo_short_buffer (n : Nat) (rest : List Nat) (hn : n ≠ 0)
    (h : ¬ HoldsRecords n rest) :
    parsePlayerInfo ([0xFF, 0xFF, 0xFF, 0xFF, 0x44] ++ n :: rest) = .panic := by
  have := parsePlayerInfo_eq_parseFrom n rest hn
  simp only [List.cons_append, List.nil_append]
  rw [this]
  by_contra hc
  exact h (parseFrom_holds n rest [] hc)

/-- C2 (code defect): the datagram `truncatedBuf` begins with the header and the
count 2, holds one complete record and then a record whose name has no
terminating null. `getPlayerInfo` hands it to `parsePlayerInfo` unchanged, in a
buffer made by `make([]byte, numread)`. There `bytes.IndexByte` finds no null
and returns -1, the slice expression `b[:nul]` panics (a negative bound,
whatever the capacity): `parsePlayerInfo` returns no error value, and
`GetPlayersForServer`, called in a goroutine of `RetryFailedPlayersReq`, is
aborted by the panic. -/
theorem parsePlayerInfo_truncated_panics :
    getPlayerInfo 64 truncatedSession = .ret truncatedBuf none ∧
      truncatedBuf
        = [0xFF, 0xFF, 0xFF, 0xFF, 0x44] ++ 2 :: (encodeAll [aliceRaw] ++ 1 :: [66, 111, 98]) ∧
      ¬ HoldsRecords 2 (encodeAll [aliceRaw] ++ 1 :: [66, 111, 98]) ∧
      IndexByte [66, 111, 98] 0 = -1 ∧
      slice [66, 111, 98] 0 (IndexByte [66, 111, 98] 0) = none ∧
      parsePlayerInfo truncatedBuf = .panic ∧
      (¬ ∃ v e, parsePlayerInfo truncatedBuf = .ret v (some e)) ∧
      GetPlayersForServer 64 truncatedSession = .panic := by
  have hp : parsePlayerInfo truncatedBuf = .panic := by decide
  refine ⟨by decide, by decide, fun h => holds_parseFrom _ _ h (by decide), by decide,
    by decide, hp, ?_, by decide⟩
  rw [hp]
  simp

/-- C3: on a buffer that does not begin with the five bytes `FF FF FF FF 44`
(a differing byte, or fewer than five bytes) `parsePlayerInfo` returns
`ErrPacketHeader` and no player records. -/
theorem parsePlayerInfo_bad_header (buf : List Nat)
    (h : ¬ ∃ rest, buf = [0xFF, 0xFF, 0xFF, 0xFF, 0x44] ++ rest) :
    parsePlayerInfo buf = .ret [] (some .ErrPacketHeader) := by
  have hp : HasPrefix buf expectedPlayerChunkHeader = false := by
    rw [← Bool.not_eq_true, HasPrefix_iff]
    exact h
  unfold parsePlayerInfo
  rw [hp]
  rfl


theorem parsePlayerInfo_bad_header_witness :
    parsePlayerInfo [] = .ret [] (some .ErrPacketHeader) ∧
      parsePlayerInfo [0xFF, 0xFF, 0xFF, 0xFF] = .ret [] (some .ErrPacketHeader) ∧
      parsePlayerInfo [0xFF, 0xFF, 0xFE, 0xFF, 0x44, 1, 0, 65, 0, 1, 0, 0, 0, 0, 0, 0, 0]
        = .ret [] (some .ErrPacketHeader) :=
  ⟨parsePlayerInfo_bad_header [] (by simp),
   parsePlayerInfo_bad_header [0xFF, 0xFF, 0xFF, 0xFF] (by simp),
   parsePlayerInfo_bad_header _ (by simp)⟩

/-- C4: on the header `FF FF FF FF 44` followed by the count byte `0`,
`parsePlayerInfo` returns `ErrNoPlayers` and no player records, whatever bytes
follow. -/
theorem parsePlayerInfo_no_players (rest : List Nat) :
    parsePlayerInfo ([0xFF, 0xFF, 0xFF, 0xFF, 0x44, 0] ++ rest)
      = .ret [] (some .ErrNoPlayers) := by
  have := parsePlayerInfo_header 0 rest
  simpa using this

/-! ## The transport session: `getPlayerInfo` -/

theorem readInto_header (size : Nat) (c : Nat) (t : List Nat) (h : 9 ≤ size) :
    ∃ t', readInto size (0xFF :: 0xFF :: 0xFF :: 0xFF :: c :: t)
        = 0xFF :: 0xFF :: 0xFF :: 0xFF :: c :: t' ∧ 4 ≤ t'.length := by
  obtain ⟨k, rfl⟩ : ∃ k, size = k + 9 := ⟨size - 9, by omega⟩
  refine ⟨t.take (k + 4) ++ List.replicate (k + 9 - (5 + (t.take (k + 4)).length)) 0, ?_, ?_⟩
  · simp [readInto, show k + 9 = (k + 4) + 1 + 1 + 1 + 1 + 1 by omega, List.take_succ_cons]
    omega
  · simp only [List.length_append, List.length_replicate, List.length_take]
    omega

theorem challenge_slice (size : Nat) (t : List Nat) (h : 9 ≤ size) :
    HasPrefix (readInto size (0xFF :: 0xFF :: 0xFF :: 0xFF :: 0x41 :: t))
        expectedPlayerRespHeader = true ∧
      ∃ ch, slice (TrimLeft (readInto size (0xFF :: 0xFF :: 0xFF :: 0xFF :: 0x41 :: t))
        headerStr) 1 5 = some ch := by
  obtain ⟨t', ht, hlen⟩ := readInto_header size 0x41 t h
  rw [ht, TrimLeft_chunk 0x41 (by norm_num)]
  refine ⟨(HasPrefix_iff _ _).mpr ⟨t', rfl⟩, ?_⟩
  have := slice_nat (0x41 :: t') 1 5 (by omega) (by simp; omega)
  exact ⟨_, this⟩

/-- C10 (amended): in `getPlayerInfo`, a failure to open the socket returns
`ErrHostConnection` and no bytes; a failure of either write or of either read
returns `ErrDataTransmit` and no bytes. -/
theorem getPlayerInfo_failures (maxPacketSize : Nat) (net : Session) (e : String) :
    (net.dial = some e →
      getPlayerInfo maxPacketSize net = .ret [] (some (.ErrHostConnection e))) ∧
    (net.dial = none → net.write1 playerChallengeReq = some e →
      getPlayerInfo maxPacketSize net = .ret [] (some (.ErrDataTransmit e))) ∧
    (net.dial = none → net.write1 playerChallengeReq = none → net.read1 = .error e →
      getPlayerInfo maxPacketSize net = .ret [] (some (.ErrDataTransmit e))) ∧
    (∀ t, 9 ≤ maxPacketSize → net.dial = none → net.write1 playerChallengeReq = none →
      net.read1 = .ok ([0xFF, 0xFF, 0xFF, 0xFF, 0x41] ++ t) →
      ((∀ req, net.write2 req = some e) →
        getPlayerInfo maxPacketSize net = .ret [] (some (.ErrDataTransmit e))) ∧
      ((∀ req, net.write2 req = none) → (∀ req, net.read2 req = .error e) →
        getPlayerInfo maxPacketSize net = .ret [] (some (.ErrDataTransmit e)))) := by
  refine ⟨?_, ?_, ?_, ?_⟩
  · intro h1
    simp [getPlayerInfo, h1]
  · intro h1 h2
    simp [getPlayerInfo, h1, h2]
  · intro h1 h2 h3
    simp [getPlayerInfo, h1, h2, h3]
  · intro t hmax h1 h2 h3
    obtain ⟨hp, ch, hch⟩ := challenge_slice maxPacketSize t hmax
    simp only [List.cons_append, List.nil_append] at h3
    constructor
    · intro h4
      simp [getPlayerInfo, h1, h2, h3, hp, hch, h4]
    · intro h4 h5
      simp [getPlayerInfo, h1, h2, h3, hp, hch, h4, h5]

theorem getPlayerInfo_failures_witness :
    getPlayerInfo 1400 { okSession with dial := some "no route to host" }
        = .ret [] (some (.ErrHostConnection "no route to host")) ∧
      getPlayerInfo 1400 { okSession with write1 := fun _ => some "connection refused" }
        = .ret [] (some (.ErrDataTransmit "connection refused")) ∧
      getPlayerInfo 1400 timeoutSession = .ret [] (some (.ErrDataTransmit "i/o timeout")) ∧
      getPlayerInfo 1400 { okSession with write2 := fun _ => some "connection refused" }
        = .ret [] (some (.ErrDataTransmit "connection refused")) ∧
      getPlayerInfo 1400 { okSession with read2 := fun _ => .error "i/o timeout" }
        = .ret [] (some (.ErrDataTransmit "i/o timeout")) :=
  ⟨(getPlayerInfo_failures 1400 _ "no route to host").1 rfl,
   (getPlayerInfo_failures 1400 _ "connection refused").2.1 rfl rfl,
   (getPlayerInfo_failures 1400 _ "i/o timeout").2.2.1 rfl rfl rfl,
   ((getPlayerInfo_failures 1400 _ "connection refused").2.2.2 [1, 2, 3, 4] (by norm_num)
      rfl rfl rfl).1 (fun _ => rfl),
   ((getPlayerInfo_failures 1400 _ "i/o timeout").2.2.2 [1, 2, 3, 4] (by norm_num)
      rfl rfl rfl).2 (fun _ => rfl) (fun _ => rfl)⟩

/-- C10 (as stated) fails: when the socket opens and the first write fails,
`getPlayerInfo` returns `ErrDataTransmit`, not `ErrHostConnection`. -/
theorem getPlayerInfo_write_failure_counterexample :
    getPlayerInfo 16 { okSession with write1 := fun _ => some "connection refused" }
        = .ret [] (some (.ErrDataTransmit "connection refused")) ∧
      (¬ ∃ msg, getPlayerInfo 16 { okSession with write1 := fun _ => some "connection refused" }
        = .ret [] (some (.ErrHostConnection msg))) ∧
      getPlayerInfo 16 { okSession with write2 := fun _ => some "connection refused" }
        = .ret [] (some (.ErrDataTransmit "connection refused")) ∧
      (¬ ∃ msg, getPlayerInfo 16 { okSession with write2 := fun _ => some "connection refused" }
        = .ret [] (some (.ErrHostConnection msg))) := by
  have h1 : getPlayerInfo 16 { okSession with write1 := fun _ => some "connection refused" }
      = .ret [] (some (.ErrDataTransmit "connection refused")) := by decide
  have h2 : getPlayerInfo 16 { okSession with write2 := fun _ => some "connection refused" }
      = .ret [] (some (.ErrDataTransmit "connection refused")) := by decide
  refine ⟨h1, ?_, h2, ?_⟩
  · rw [h1]; simp
  · rw [h2]; simp

/-! ## The retry orchestrator: `RetryFailedPlayersReq` -/

theorem count_removeFailedHost_ne (f : List Host) (h x : Host) (hx : x ≠ h) :
    (removeFailedHost f x).count h = f.count h := by
  unfold removeFailedHost
  exact List.count_filter (by simpa using hx.symm)

theorem count_removeFailedHost_self (f : List Host) (h : Host) :
    (removeFailedHost f h).count h = 0 := by
  unfold removeFailedHost
  rw [List.count_eq_zero]
  simp

theorem worker_retry (query : Host → Nat → QueryResult) (s : RetryState) (x : Host)
    (hr : Retryable (query x (s.calls x))) :
    worker query s x = { s with calls := Function.update s.calls x (s.calls x + 1) } := by
  unfold Retryable at hr
  unfold worker
  simp only []
  rw [if_pos hr]

theorem worker_done (query : Host → Nat → QueryResult) (s : RetryState) (x : Host)
    (hr : ¬ Retryable (query x (s.calls x))) :
    worker query s x =
      { m := Function.update s.m x (some (query x (s.calls x)).1)
        f := removeFailedHost s.f x
        calls := Function.update s.calls x (s.calls x + 1)
        writes := Function.update s.writes x (s.writes x + 1) } := by
  unfold Retryable at hr
  unfold worker
  simp only []
  rw [if_neg hr]

theorem view_worker_ne (query : Host → Nat → QueryResult) (s : RetryState) (h x : Host)
    (hx : x ≠ h) : view h (worker query s x) = view h s := by
  by_cases hr : Retryable (query x (s.calls x))
  · rw [worker_retry _ _ _ hr]
    simp [view, Function.update_noteq hx.symm]
  · rw [worker_done _ _ _ hr]
    simp [view, Function.update_noteq hx.symm, count_removeFailedHost_ne _ _ _ hx]

theorem view_worker_self (query : Host → Nat → QueryResult) (s : RetryState) (h : Host) :
    view h (worker query s h) = stepView query h (view h s) := by
  by_cases hr : Retryable (query h (s.calls h))
  · rw [worker_retry _ _ _ hr]
    simp [view, stepView, hr]
  · rw [worker_done _ _ _ hr]
    simp [view, stepView, hr, count_removeFailedHost_self]

theorem view_foldl (query : Host → Nat → QueryResult) (h : Host) (l : List Host) :
    ∀ s, view h (l.foldl (worker query) s) = (stepView query h)^[l.count h] (view h s) := by
  induction l with
  | nil => intro s; simp
  | cons x l ih =>
    intro s
    rw [List.foldl_cons, ih]
    by_cases hx : x = h
    · subst hx
      rw [view_worker_self, List.count_cons_self, Function.iterate_succ_apply]
    · rw [view_worker_ne _ _ _ _ hx, List.count_cons_of_ne (fun e => hx e.symm)]

theorem view_round (query : Host → Nat → QueryResult) (order : List Host → List Host)
    (ho : ∀ l, (order l).Perm l) (h : Host) (s : RetryState) :
    view h (round query order s) = roundView query h (view h s) := by
  unfold round roundView
  rw [view_foldl, (ho s.f).count_eq]
  rfl

theorem view_retryLoop (query : Host → Nat → QueryResult) (sched : Nat → List Host → List Host)
    (hs : ∀ i l, (sched i l).Perm l) (failed : List Host) (h : Host) (n : Nat) :
    ∀ i s, i ≠ 0 →
      view h (retryLoop query sched failed n i s) = (roundView query h)^[n] (view h s) := by
  induction n with
  | zero => intro i s _; rfl
  | succ n ih =>
    intro i s hi
    rw [retryLoop, if_neg hi, ih _ _ (by omega), view_round _ _ (hs i),
      Function.iterate_succ_apply]

/-- The view of a host after `n + 1` rounds: `n + 1` rounds on the view that has
no entry, no call, no write and the occurrences of the host in the input list. -/
theorem view_stateAfter (query : Host → Nat → QueryResult) (sched : Nat → List Host → List Host)
    (hs : ∀ i l, (sched i l).Perm l) (failed : List Host) (h : Host) (n : Nat) :
    view h (stateAfter query sched failed (n + 1))
      = (roundView query h)^[n + 1] ⟨none, 0, 0, failed.count h⟩ := by
  unfold stateAfter
  rw [retryLoop, if_pos rfl, view_retryLoop _ _ hs _ _ _ _ _ (by omega), view_round _ _ (hs 0),
    Function.iterate_succ_apply]
  rfl

theorem stepView_retry (query : Host → Nat → QueryResult) (h : Host) (v : HostView)
    (hr : Retryable (query h v.calls)) :
    stepView query h v = { v with calls := v.calls + 1 } := by
  unfold stepView
  rw [if_pos hr]

theorem stepView_done (query : Host → Nat → QueryResult) (h : Host) (v : HostView)
    (hr : ¬ Retryable (query h v.calls)) :
    stepView query h v = ⟨some (query h v.calls).1, v.calls + 1, v.writes + 1, 0⟩ := by
  unfold stepView
  rw [if_neg hr]

theorem roundView_zero (query : Host → Nat → QueryResult) (h : Host) (v : HostView)
    (hp : v.pending = 0) : roundView query h v = v := by
  unfold roundView
  rw [hp]
  rfl

theorem roundView_one (query : Host → Nat → QueryResult) (h : Host) (v : HostView)
    (hp : v.pending = 1) : roundView query h v = stepView query h v := by
  unfold roundView
  rw [hp]
  rfl

theorem iterate_roundView_zero (query : Host → Nat → QueryResult) (h : Host) (v : HostView)
    (hp : v.pending = 0) (n : Nat) : (roundView query h)^[n] v = v := by
  induction n with
  | zero => rfl
  | succ n ih => rw [Function.iterate_succ_apply, roundView_zero _ _ _ hp, ih]

theorem iterate_stepView_failing (query : Host → Nat → QueryResult) (h : Host)
    (hfail : ∀ i, Retryable (query h i)) (k : Nat) :
    ∀ v : HostView, (stepView query h)^[k] v = { v with calls := v.calls + k } := by
  induction k with
  | zero => intro v; rfl
  | succ k ih =>
    intro v
    rw [Function.iterate_succ_apply, stepView_retry _ _ _ (hfail _), ih]
    simp only [HostView.mk.injEq, true_and, and_true]
    omega

theorem iterate_roundView_failing (query : Host → Nat → QueryResult) (h : Host)
    (hfail : ∀ i, Retryable (query h i)) (n : Nat) :
    ∀ v : HostView, (roundView query h)^[n] v = { v with calls := v.calls + n * v.pending } := by
  induction n with
  | zero => intro v; simp
  | succ n ih =>
    intro v
    rw [Function.iterate_succ_apply, roundView, iterate_stepView_failing _ _ hfail, ih]
    simp only [HostView.mk.injEq, true_and, and_true]
    ring

/-- A host listed once: after `n` rounds either every attempt so far failed with
a retryable error and the host is still pending with no entry, or its first
attempt that did not, number `j`, was made in round `j + 1`, wrote the entry
once and removed the host. -/
theorem iterate_roundView_once (query : Host → Nat → QueryResult) (h : Host) (n : Nat) :
    ((roundView query h)^[n] ⟨none, 0, 0, 1⟩ = ⟨none, n, 0, 1⟩ ∧
        ∀ i < n, Retryable (query h i)) ∨
      ∃ j < n, (∀ i < j, Retryable (query h i)) ∧ ¬ Retryable (query h j) ∧
        (roundView query h)^[n] ⟨none, 0, 0, 1⟩ = ⟨some (query h j).1, j + 1, 1, 0⟩ := by
  induction n with
  | zero => left; exact ⟨rfl, fun i hi => absurd hi (Nat.not_lt_zero i)⟩
  | succ n ih =>
    rcases ih with ⟨hv, hall⟩ | ⟨j, hj, hbefore, hdone, hv⟩
    · by_cases hr : Retryable (query h n)
      · left
        refine ⟨?_, ?_⟩
        · rw [Function.iterate_succ_apply', hv, roundView_one _ _ _ rfl,
            stepView_retry _ _ _ hr]
        · intro i hi
          rcases Nat.lt_succ_iff_lt_or_eq.mp hi with hlt | rfl
          · exact hall i hlt
          · exact hr
      · right
        refine ⟨n, Nat.lt_succ_self n, hall, hr, ?_⟩
        rw [Function.iterate_succ_apply', hv, roundView_one _ _ _ rfl,
          stepView_done _ _ _ hr]
    · right
      refine ⟨j, Nat.lt_succ_of_lt hj, hbefore, hdone, ?_⟩
      rw [Function.iterate_succ_apply', hv, roundView_zero _ _ _ rfl]

theorem iterate_roundView_first (query : Host → Nat → QueryResult) (h : Host) (n j : Nat)
    (hj : j < n) (hbefore : ∀ i < j, Retryable (query h i)) (hdone : ¬ Retryable (query h j)) :
    (roundView query h)^[n] ⟨none, 0, 0, 1⟩ = ⟨some (query h j).1, j + 1, 1, 0⟩ := by
  rcases iterate_roundView_once query h n with ⟨_, hall⟩ | ⟨j2, hj2, hb2, hd2, hv⟩
  · exact absurd (hall j hj) hdone
  · rcases Nat.lt_trichotomy j j2 with hlt | heq | hgt
    · exact absurd (hb2 j hlt) hdone
    · subst heq; exact hv
    · exact absurd (hbefore j2 hgt) hd2

theorem not_mem_of_pending_zero (h : Host) (s : RetryState) (hv : (view h s).pending = 0) :
    h ∉ s.f := by
  unfold view at hv
  exact List.count_eq_zero.mp hv

/-- C6 (amended): a listed host whose every attempt fails with an error other
than `ErrNoPlayers` is absent from the returned map, and `GetPlayersForServer`
is invoked on it exactly `maxRounds` times for each occurrence of the host in
the list: exactly `maxRounds` times when it is listed once. -/
theorem retry_always_failing (query : Host → Nat → QueryResult)
    (sched : Nat → List Host → List Host) (failed : List Host) (retrycount : Int) (h : Host)
    (hs : ∀ i l, (sched i l).Perm l) (hr : 1 ≤ retrycount) (_hmem : h ∈ failed)
    (hfail : ∀ i, Retryable (query h i)) :
    RetryFailedPlayersReq query sched failed retrycount h = none ∧
      (stateAfter query sched failed retrycount.toNat).calls h
        = retrycount.toNat * failed.count h ∧
      (failed.count h = 1 →
        (stateAfter query sched failed retrycount.toNat).calls h = retrycount.toNat) := by
  obtain ⟨n, hn⟩ : ∃ n, retrycount.toNat = n + 1 := ⟨retrycount.toNat - 1, by omega⟩
  have hv := view_stateAfter query sched hs failed h n
  rw [iterate_roundView_failing _ _ hfail] at hv
  have hm : (stateAfter query sched failed (n + 1)).m h = none := congrArg HostView.entry hv
  have hc : (stateAfter query sched failed (n + 1)).calls h = 0 + (n + 1) * failed.count h :=
    congrArg HostView.calls hv
  unfold RetryFailedPlayersReq
  rw [hn]
  refine ⟨hm, by rw [hc]; omega, fun h1 => by rw [hc, h1]; omega⟩

theorem retry_always_failing_witness :
    RetryFailedPlayersReq alwaysTimeout inOrder ["10.0.0.1:27015", "10.0.0.2:27015"] 3
        "10.0.0.2:27015" = none ∧
      (stateAfter alwaysTimeout inOrder ["10.0.0.1:27015", "10.0.0.2:27015"]
        (3 : Int).toNat).calls "10.0.0.2:27015"
        = (3 : Int).toNat * ["10.0.0.1:27015", "10.0.0.2:27015"].count "10.0.0.2:27015" ∧
      (["10.0.0.1:27015", "10.0.0.2:27015"].count "10.0.0.2:27015" = 1 →
        (stateAfter alwaysTimeout inOrder ["10.0.0.1:27015", "10.0.0.2:27015"]
          (3 : Int).toNat).calls "10.0.0.2:27015" = (3 : Int).toNat) :=
  retry_always_failing alwaysTimeout inOrder ["10.0.0.1:27015", "10.0.0.2:27015"] 3
    "10.0.0.2:27015" (fun _ _ => List.Perm.refl _) (by decide) (by decide)
    (fun _ => by simp [Retryable, alwaysTimeout])

/-- C6 (as stated) fails: with the host list `["a", "a"]`, one round and a host
that never answers, `GetPlayersForServer` is invoked on `"a"` twice, not once. -/
theorem retry_always_failing_counterexample :
    (1 : Int) ≤ 1 ∧ "a" ∈ ["a", "a"] ∧ (∀ i, Retryable (alwaysTimeout "a" i)) ∧
      (stateAfter alwaysTimeout inOrder ["a", "a"] (1 : Int).toNat).calls "a" = 2 ∧
      (stateAfter alwaysTimeout inOrder ["a", "a"] (1 : Int).toNat).calls "a"
        ≠ (1 : Int).toNat :=
  ⟨by decide, by decide, fun _ => by simp [Retryable, alwaysTimeout], by decide, by decide⟩

/-- A host that is not in the input list is never queried and gets no entry. -/
theorem retry_not_listed (query : Host → Nat → QueryResult)
    (sched : Nat → List Host → List Host) (hs : ∀ i l, (sched i l).Perm l)
    (failed : List Host) (h : Host) (hn : h ∉ failed) (n : Nat) :
    view h (stateAfter query sched failed n) = ⟨none, 0, 0, 0⟩ ∨
      view h (stateAfter query sched failed n) = ⟨none, 0, 0, failed.count h⟩ := by
  cases n with
  | zero => left; rfl
  | succ n =>
    right
    rw [view_stateAfter _ _ hs, iterate_roundView_zero]
    exact List.count_eq_zero.mpr hn

/-- C7 (amended): a host listed exactly once whose attempts return
`ErrNoPlayers` (with the nil slice `GetPlayersForServer` returns beside an
error) is in the returned map with an empty player sequence, has left the
outstanding hosts after the first round, and is queried exactly once. -/
theorem retry_no_players (query : Host → Nat → QueryResult)
    (sched : Nat → List Host → List Host) (failed : List Host) (retrycount : Int) (h : Host)
    (hs : ∀ i l, (sched i l).Perm l) (hr : 1 ≤ retrycount) (hc : failed.count h = 1)
    (hno : ∀ i, query h i = ([], some .ErrNoPlayers)) :
    RetryFailedPlayersReq query sched failed retrycount h = some [] ∧
      h ∉ (stateAfter query sched failed 1).f ∧
      (stateAfter query sched failed retrycount.toNat).calls h = 1 := by
  obtain ⟨n, hn⟩ : ∃ n, retrycount.toNat = n + 1 := ⟨retrycount.toNat - 1, by omega⟩
  have hdone : ¬ Retryable (query h 0) := by
    rw [hno 0]; simp [Retryable]
  have hv := view_stateAfter query sched hs failed h n
  rw [hc, iterate_roundView_first query h (n + 1) 0 (by omega) (fun i hi => by omega) hdone,
    hno 0] at hv
  have hv1 := view_stateAfter query sched hs failed h 0
  rw [hc, iterate_roundView_first query h (0 + 1) 0 (by omega) (fun i hi => by omega) hdone]
    at hv1
  unfold RetryFailedPlayersReq
  rw [hn]
  exact ⟨congrArg HostView.entry hv,
    not_mem_of_pending_zero h _ (congrArg HostView.pending hv1),
    congrArg HostView.calls hv⟩

theorem retry_no_players_witness :
    RetryFailedPlayersReq alwaysEmpty inOrder ["10.0.0.1:27015", "10.0.0.2:27015"] 3
        "10.0.0.1:27015" = some [] ∧
      "10.0.0.1:27015" ∉
        (stateAfter alwaysEmpty inOrder ["10.0.0.1:27015", "10.0.0.2:27015"] 1).f ∧
      (stateAfter alwaysEmpty inOrder ["10.0.0.1:27015", "10.0.0.2:27015"]
        (3 : Int).toNat).calls "10.0.0.1:27015" = 1 :=
  retry_no_players alwaysEmpty inOrder ["10.0.0.1:27015", "10.0.0.2:27015"] 3
    "10.0.0.1:27015" (fun _ _ => List.Perm.refl _) (by decide) (by decide) (fun _ => rfl)

/-- C7 (as stated) fails: with the host list `["a", "a"]` and a host answering
`ErrNoPlayers`, the host is queried twice, not once. -/
theorem retry_no_players_counterexample :
    (1 : Int) ≤ 3 ∧ "a" ∈ ["a", "a"] ∧ (∀ i, alwaysEmpty "a" i = ([], some .ErrNoPlayers)) ∧
      (stateAfter alwaysEmpty inOrder ["a", "a"] (3 : Int).toNat).calls "a" = 2 ∧
      (stateAfter alwaysEmpty inOrder ["a", "a"] (3 : Int).toNat).calls "a" ≠ 1 :=
  ⟨by decide, by decide, fun _ => rfl, by decide, by decide⟩

/-- C8 (amended): a host listed exactly once whose first `k - 1` attempts fail
with a retryable error and whose `k`-th attempt succeeds with the players `P`,
`1 ≤ k ≤ maxRounds`, is mapped to exactly `P` in the returned map and is queried
exactly `k` times; a host that is not listed has no entry. -/
theorem retry_success_on_kth (query : Host → Nat → QueryResult)
    (sched : Nat → List Host → List Host) (failed : List Host) (retrycount : Int) (h : Host)
    (k : Nat) (P : List SteamPlayerInfo)
    (hs : ∀ i l, (sched i l).Perm l) (hc : failed.count h = 1) (hk1 : 1 ≤ k)
    (hk : (k : Int) ≤ retrycount) (hbefore : ∀ i, i + 1 < k → Retryable (query h i))
    (hsucc : query h (k - 1) = (P, none)) :
    RetryFailedPlayersReq query sched failed retrycount h = some P ∧
      (stateAfter query sched failed retrycount.toNat).calls h = k ∧
      ∀ x, x ∉ failed → RetryFailedPlayersReq query sched failed retrycount x = none := by
  obtain ⟨n, hn⟩ : ∃ n, retrycount.toNat = n + 1 := ⟨retrycount.toNat - 1, by omega⟩
  have hdone : ¬ Retryable (query h (k - 1)) := by
    rw [hsucc]; simp [Retryable]
  have hv := view_stateAfter query sched hs failed h n
  rw [hc, iterate_roundView_first query h (n + 1) (k - 1) (by omega)
    (fun i hi => hbefore i (by omega)) hdone, hsucc] at hv
  unfold RetryFailedPlayersReq
  rw [hn]
  refine ⟨congrArg HostView.entry hv, ?_, ?_⟩
  · have := congrArg HostView.calls hv
    simp only [view] at this
    omega
  · intro x hx
    rcases retry_not_listed query sched hs failed x hx (n + 1) with h0 | h0
    · exact congrArg HostView.entry h0
    · exact congrArg HostView.entry h0

theorem retry_success_on_kth_witness :
    RetryFailedPlayersReq failThenAnswer inOrder ["10.0.0.1:27015"] 3 "10.0.0.1:27015"
        = some [alice, bob] ∧
      (stateAfter failThenAnswer inOrder ["10.0.0.1:27015"] (3 : Int).toNat).calls
        "10.0.0.1:27015" = 2 ∧
      ∀ x, x ∉ ["10.0.0.1:27015"] →
        RetryFailedPlayersReq failThenAnswer inOrder ["10.0.0.1:27015"] 3 x = none :=
  retry_success_on_kth failThenAnswer inOrder ["10.0.0.1:27015"] 3 "10.0.0.1:27015" 2
    [alice, bob] (fun _ _ => List.Perm.refl _) (by decide) (by decide) (by decide)
    (fun i hi => by
      have h0 : i = 0 := by omega
      subst h0
      simp [Retryable, failThenAnswer])
    rfl

/-- C8 (as stated) fails: with the host list `["a", "a"]`, one round and a
first attempt that succeeds with Alice (`k = 1`), the host is queried twice and
the map holds the answer of the second query. -/
theorem retry_success_on_kth_counterexample :
    (1 : Int) ≤ 1 ∧ aliceThenBob "a" 0 = ([alice], none) ∧
      (stateAfter aliceThenBob inOrder ["a", "a"] (1 : Int).toNat).calls "a" = 2 ∧
      RetryFailedPlayersReq aliceThenBob inOrder ["a", "a"] 1 "a" = some [bob] ∧
      RetryFailedPlayersReq aliceThenBob inOrder ["a", "a"] 1 "a" ≠ some [alice] :=
  ⟨by decide, rfl, by decide, by decide, by decide⟩

/-- C9 (amended): for a host listed exactly once, whatever the other hosts
and the number of rounds run: its entry is written at most once; if attempt
number `j` (counted from 0) is its first that ends without a retryable error and
`j` is below the number of rounds, the entry is the outcome of that attempt, it
was written once and the host was not queried again; if every attempt made
failed with a retryable error there is no entry. -/
theorem retry_first_success_wins (query : Host → Nat → QueryResult)
    (sched : Nat → List Host → List Host) (failed : List Host) (retrycount : Int) (h : Host)
    (hs : ∀ i l, (sched i l).Perm l) (hc : failed.count h = 1) :
    (stateAfter query sched failed retrycount.toNat).writes h ≤ 1 ∧
      (∀ j : Nat, (j : Int) < retrycount → (∀ i < j, Retryable (query h i)) →
        ¬ Retryable (query h j) →
        RetryFailedPlayersReq query sched failed retrycount h = some (query h j).1 ∧
          (stateAfter query sched failed retrycount.toNat).writes h = 1 ∧
          (stateAfter query sched failed retrycount.toNat).calls h = j + 1) ∧
      ((∀ i : Nat, (i : Int) < retrycount → Retryable (query h i)) →
        RetryFailedPlayersReq query sched failed retrycount h = none ∧
          (stateAfter query sched failed retrycount.toNat).writes h = 0) := by
  unfold RetryFailedPlayersReq
  cases hn : retrycount.toNat with
  | zero =>
    refine ⟨Nat.zero_le _, ?_, fun _ => ⟨rfl, rfl⟩⟩
    intro j hj
    omega
  | succ n =>
    have hv := view_stateAfter query sched hs failed h n
    rw [hc] at hv
    refine ⟨?_, ?_, ?_⟩
    · rcases iterate_roundView_once query h (n + 1) with ⟨he, _⟩ | ⟨j, _, _, _, he⟩
      · rw [he] at hv
        exact le_of_eq_of_le (congrArg HostView.writes hv) (Nat.zero_le 1)
      · rw [he] at hv
        exact le_of_eq (congrArg HostView.writes hv)
    · intro j hj hbefore hdone
      rw [iterate_roundView_first query h (n + 1) j (by omega) hbefore hdone] at hv
      exact ⟨congrArg HostView.entry hv, congrArg HostView.writes hv,
        congrArg HostView.calls hv⟩
    · intro hall
      rcases iterate_roundView_once query h (n + 1) with ⟨he, _⟩ | ⟨j, hj, _, hdone, _⟩
      · rw [he] at hv
        exact ⟨congrArg HostView.entry hv, congrArg HostView.writes hv⟩
      · exact absurd (hall j (by omega)) hdone

theorem retry_first_success_wins_witness :
    (stateAfter aliceThenBob inOrder ["10.0.0.1:27015", "10.0.0.2:27015"]
        (3 : Int).toNat).writes "10.0.0.1:27015" ≤ 1 ∧
      RetryFailedPlayersReq aliceThenBob inOrder ["10.0.0.1:27015", "10.0.0.2:27015"] 3
        "10.0.0.1:27015" = some [alice] ∧
      (stateAfter aliceThenBob inOrder ["10.0.0.1:27015", "10.0.0.2:27015"]
        (3 : Int).toNat).writes "10.0.0.1:27015" = 1 ∧
      (stateAfter aliceThenBob inOrder ["10.0.0.1:27015", "10.0.0.2:27015"]
        (3 : Int).toNat).calls "10.0.0.1:27015" = 0 + 1 :=
  ⟨(retry_first_success_wins aliceThenBob inOrder ["10.0.0.1:27015", "10.0.0.2:27015"] 3
      "10.0.0.1:27015" (fun _ _ => List.Perm.refl _) (by decide)).1,
   (retry_first_success_wins aliceThenBob inOrder ["10.0.0.1:27015", "10.0.0.2:27015"] 3
      "10.0.0.1:27015" (fun _ _ => List.Perm.refl _) (by decide)).2.1 0 (by decide)
      (fun i hi => absurd hi (Nat.not_lt_zero i)) (by simp [Retryable, aliceThenBob])⟩

/-- C9 (as stated) fails: with the host list `["a", "a"]` and one round, the
entry of `"a"` is written twice and the returned map holds the outcome of the
second successful attempt (Bob), not of the first (Alice). -/
theorem retry_first_success_wins_counterexample :
    ¬ Retryable (aliceThenBob "a" 0) ∧ (aliceThenBob "a" 0).1 = [alice] ∧
      (stateAfter aliceThenBob inOrder ["a", "a"] (1 : Int).toNat).writes "a" = 2 ∧
      RetryFailedPlayersReq aliceThenBob inOrder ["a", "a"] 1 "a" = some [bob] ∧
      RetryFailedPlayersReq aliceThenBob inOrder ["a", "a"] 1 "a"
        ≠ some (aliceThenBob "a" 0).1 :=
  ⟨by decide, rfl, by decide, by decide, by decide⟩

/-- What `GetPlayersForServer` returns in the two sessions of the end-to-end
scenario, and the fact that it never returns players beside an error. -/
theorem GetPlayersForServer_samples :
    GetPlayersForServer 64 timeoutSession = .ret [] (some (.ErrDataTransmit "i/o timeout")) ∧
      GetPlayersForServer 64 okSession = .ret [alice, bob] none ∧
      ∀ (maxPacketSize : Nat) (net : Session) (v : List SteamPlayerInfo) (e : SteamError),
        GetPlayersForServer maxPacketSize net = .ret v (some e) → v = [] := by
  refine ⟨by decide, by decide, ?_⟩
  intro maxPacketSize net v e h
  unfold GetPlayersForServer at h
  split at h
  · simp at h
  · simp only [Outcome.ret.injEq] at h
    exact h.1.symm
  · split at h
    · simp at h
    · simp only [Outcome.ret.injEq] at h
      exact h.1.symm
    · simp at h

/-! ## The duration formatter: `getDuration` -/

theorem fmtFracLoop_whole (k : Nat) :
    ∀ (buf : List Char) (n : Nat), fmtFracLoop k buf (n * 10 ^ k) false = (buf, n, false) := by
  induction k with
  | zero => intro buf n; simp [fmtFracLoop]
  | succ k ih =>
    intro buf n
    have h1 : n * 10 ^ (k + 1) % 10 = 0 := by
      rw [pow_succ, ← Nat.mul_assoc]; exact Nat.mul_mod_left _ _
    have h2 : n * 10 ^ (k + 1) / 10 = n * 10 ^ k := by
      rw [pow_succ, ← Nat.mul_assoc]; exact Nat.mul_div_cancel _ (by norm_num)
    rw [fmtFracLoop]
    simp only [h1, h2]
    simpa using ih buf n

theorem fmtFrac_whole (buf : List Char) (n : Nat) :
    fmtFrac buf (n * 10 ^ 9) 9 = (buf, n) := by
  unfold fmtFrac
  rw [fmtFracLoop_whole]
  rfl

theorem digitByte_eq (d : Nat) (h : d < 10) : digitByte d = Nat.digitChar d := by
  interval_cases d <;> rfl

theorem fmtIntLoop_eq (v : Nat) :
    ∀ (fuel1 fuel2 : Nat) (buf : List Char), 0 < v → v < fuel1 → v ≤ fuel2 →
      fmtIntLoop fuel2 buf v = Nat.toDigitsCore 10 fuel1 v buf := by
  induction v using Nat.strong_induction_on with
  | _ v ih =>
    intro fuel1 fuel2 buf hv h1 h2
    obtain ⟨f1, rfl⟩ : ∃ f1, fuel1 = f1 + 1 := ⟨fuel1 - 1, by omega⟩
    obtain ⟨f2, rfl⟩ : ∃ f2, fuel2 = f2 + 1 := ⟨fuel2 - 1, by omega⟩
    rw [fmtIntLoop, if_pos hv, Nat.toDigitsCore, digitByte_eq _ (Nat.mod_lt _ (by norm_num))]
    by_cases hz : v / 10 = 0
    · rw [if_pos hz, hz]
      cases f2 with
      | zero => rfl
      | succ f2 => rw [fmtIntLoop, if_neg (by omega)]
    · rw [if_neg hz]
      have hlt : v / 10 < v := Nat.div_lt_self hv (by norm_num)
      exact ih (v / 10) hlt f1 f2 _ (by omega) (by omega) (by omega)

theorem toDigitsCore_append (fuel : Nat) :
    ∀ (n : Nat) (ds : List Char),
      Nat.toDigitsCore 10 fuel n ds = Nat.toDigitsCore 10 fuel n [] ++ ds := by
  induction fuel with
  | zero => intro n ds; simp [Nat.toDigitsCore]
  | succ fuel ih =>
    intro n ds
    simp only [Nat.toDigitsCore]
    by_cases hz : n / 10 = 0
    · simp [hz]
    · simp only [hz, if_false]
      rw [ih (n / 10) ((n % 10).digitChar :: ds), ih (n / 10) [(n % 10).digitChar]]
      simp

theorem fmtInt_eq (buf : List Char) (v : Nat) :
    fmtInt buf v = Nat.toDigits 10 v ++ buf := by
  unfold fmtInt Nat.toDigits
  by_cases hv : v = 0
  · subst hv
    simp [Nat.toDigitsCore]
    rfl
  · rw [if_neg hv, fmtIntLoop_eq v (v + 1) v buf (by omega) (by omega) le_rfl,
      toDigitsCore_append]

theorem toString_data (n : Nat) : (toString n).data = Nat.toDigits 10 n := rfl

theorem durationString_whole (n : Nat) :
    durationString ((n : Int) * (Second : Int)) = renderSeconds n := by
  by_cases hn : n = 0
  · subst hn
    decide
  · have hu : ((n : Int) * (Second : Int)).natAbs = n * 10 ^ 9 := by
      rw [Int.natAbs_mul]
      simp [Second]
    have hneg : ¬ ((n : Int) * (Second : Int) < 0) := by
      have : (0 : Int) ≤ (n : Int) * (Second : Int) := by positivity
      omega
    have hbig : ¬ (n * 10 ^ 9 < Second) := by
      unfold Second; omega
    unfold durationString renderSeconds
    simp only [hu, hneg, hbig, decide_False, if_false, fmtFrac_whole, fmtInt_eq, Bool.false_eq_true]
    apply String.ext
    have h3600 : n / 60 / 60 = n / 3600 := by rw [Nat.div_div_eq_div_mul]
    by_cases h1 : 0 < n / 60
    · by_cases h2 : 0 < n / 60 / 60
      · have h2b : 0 < n / 3600 := by omega
        simp [h1, h2, h2b, h3600, String.data_append, toString_data]
      · have h2b : ¬ 0 < n / 3600 := by omega
        have h1c : 0 < n / 60 % 60 := by omega
        simp [h1, h2, h2b, h1c, String.data_append, toString_data]
    · have h2b : ¬ 0 < n / 3600 := by omega
      have h1b : ¬ 0 < n / 60 % 60 := by omega
      simp [h1, h2b, h1b, String.data_append, toString_data]

theorem truncMag_of_sign (f : Float32) (hs : f.sign = 1) (hpos : 0 ≤ f.toRat) :
    f.truncMag = 0 := by
  have hp : (0 : ℚ) < (2 : ℚ) ^ ((f.scale : Int) - 150) := zpow_pos (by norm_num) _
  have hm : f.mant = 0 := by
    unfold Float32.toRat at hpos
    rw [if_pos hs] at hpos
    have h1 : (f.mant : ℚ) * (2 : ℚ) ^ ((f.scale : Int) - 150) ≤ 0 := by linarith
    have h2 : (f.mant : ℚ) ≤ 0 := by
      by_contra hc
      push_neg at hc
      have := mul_pos hc hp
      linarith
    have h3 : (f.mant : ℚ) = 0 := le_antisymm h2 (Nat.cast_nonneg _)
    exact_mod_cast h3
  unfold Float32.truncMag
  rw [hm]
  simp

theorem floor_toRat (f : Float32) (hpos : 0 ≤ f.toRat) :
    ⌊f.toRat⌋ = (f.truncMag : Int) := by
  by_cases hs : f.sign = 1
  · have ht := truncMag_of_sign f hs hpos
    have hp : (0 : ℚ) < (2 : ℚ) ^ ((f.scale : Int) - 150) := zpow_pos (by norm_num) _
    have hz : f.toRat = 0 := by
      apply le_antisymm _ hpos
      unfold Float32.toRat
      rw [if_pos hs]
      have : (0 : ℚ) ≤ (f.mant : ℚ) * (2 : ℚ) ^ ((f.scale : Int) - 150) :=
        mul_nonneg (Nat.cast_nonneg _) hp.le
      linarith
    rw [hz, ht]
    simp
  · unfold Float32.toRat Float32.truncMag
    rw [if_neg hs, one_mul]
    by_cases hsc : 150 ≤ f.scale
    · rw [if_pos hsc]
      have he : ((f.scale : Int) - 150) = ((f.scale - 150 : Nat) : Int) := by omega
      rw [he, zpow_natCast]
      have : ((f.mant : ℚ) * (2 : ℚ) ^ (f.scale - 150))
          = ((f.mant * 2 ^ (f.scale - 150) : Nat) : ℚ) := by push_cast; ring
      rw [this, Int.floor_natCast]
    · rw [if_neg hsc]
      have he : ((f.scale : Int) - 150) = -((150 - f.scale : Nat) : Int) := by omega
      rw [he, zpow_neg, zpow_natCast]
      have : ((f.mant : ℚ) * ((2 : ℚ) ^ (150 - f.scale))⁻¹)
          = (((f.mant : Int) : ℚ) / ((2 ^ (150 - f.scale) : Nat) : ℚ)) := by
        push_cast; rw [div_eq_mul_inv]
      rw [this, Rat.floor_intCast_div_natCast]
      norm_cast

theorem int64_eq (f : Float32) (hfin : f.isFinite = true) (hpos : 0 ≤ f.toRat)
    (hlt : f.truncMag < 2 ^ 63) : int64 f = (f.truncMag : Int) := by
  have he : f.expo ≠ 255 := by
    unfold Float32.isFinite at hfin
    simpa using hfin
  unfold int64
  rw [if_neg (by omega)]
  by_cases hs : f.sign = 1
  · rw [if_pos hs, truncMag_of_sign f hs hpos]
    simp
  · rw [if_neg hs]

theorem wrap64_eq (z : Int) (h0 : 0 ≤ z) (h1 : z < 2 ^ 63) : wrap64 z = z := by
  unfold wrap64
  omega

/-- C5 (amended): on the little-endian bit pattern of a finite `float32` value
`f ≥ 0` with `floor(f) * 10^9 < 2^63` (a duration in nanoseconds that fits an
`int64`), `getDuration` returns `f` itself as the seconds and, as display
string, the text of exactly `floor(f)` whole seconds. -/
theorem getDuration_whole_seconds (b0 b1 b2 b3 : Nat)
    (h0 : b0 < 256) (h1 : b1 < 256) (h2 : b2 < 256) (h3 : b3 < 256)
    (hfin : (Float32frombits (b0 + 256 * b1 + 65536 * b2 + 16777216 * b3)).isFinite = true)
    (hpos : 0 ≤ (Float32frombits (b0 + 256 * b1 + 65536 * b2 + 16777216 * b3)).toRat)
    (hfit : ⌊(Float32frombits (b0 + 256 * b1 + 65536 * b2 + 16777216 * b3)).toRat⌋
      * 10 ^ 9 < 2 ^ 63) :
    getDuration [b0, b1, b2, b3]
      = some (Float32frombits (b0 + 256 * b1 + 65536 * b2 + 16777216 * b3),
          renderSeconds
            ⌊(Float32frombits (b0 + 256 * b1 + 65536 * b2 + 16777216 * b3)).toRat⌋.toNat) := by
  have hu : Uint32 [b0, b1, b2, b3]
      = some (b0 + 256 * b1 + 65536 * b2 + 16777216 * b3) := by
    unfold Uint32
    simp only [Nat.mod_eq_of_lt h0, Nat.mod_eq_of_lt h1, Nat.mod_eq_of_lt h2,
      Nat.mod_eq_of_lt h3]
    congr 1
    omega
  unfold getDuration
  rw [hu]
  simp only []
  generalize Float32frombits (b0 + 256 * b1 + 65536 * b2 + 16777216 * b3) = f
    at hfin hpos hfit ⊢
  rw [floor_toRat f hpos] at hfit ⊢
  have hlt : f.truncMag < 2 ^ 63 := by
    have : (f.truncMag : Int) * 10 ^ 9 < 2 ^ 63 := hfit
    omega
  have hsec : ((f.truncMag : Int) * (Second : Int)) = (f.truncMag : Int) * 10 ^ 9 := by
    simp [Second]
  rw [int64_eq f hfin hpos hlt, wrap64_eq _ (by positivity) (by rw [hsec]; exact hfit),
    durationString_whole, Int.toNat_natCast]


theorem getDuration_whole_seconds_witness :
    getDuration [0x00, 0x00, 0xFA, 0x42]
        = some (Float32frombits (0x00 + 256 * 0x00 + 65536 * 0xFA + 16777216 * 0x42),
            renderSeconds ⌊(Float32frombits
              (0x00 + 256 * 0x00 + 65536 * 0xFA + 16777216 * 0x42)).toRat⌋.toNat) ∧
      (Float32frombits (0x00 + 256 * 0x00 + 65536 * 0xFA + 16777216 * 0x42)).toRat = 125 ∧
      renderSeconds 125 = "2m5s" ∧
      getDuration [0x00, 0x00, 0xFA, 0x42] = some (⟨0x42FA0000⟩, "2m5s") := by
  have hv : (Float32frombits (0x00 + 256 * 0x00 + 65536 * 0xFA + 16777216 * 0x42)).toRat
      = 125 := by
    have hs : (Float32frombits (0x00 + 256 * 0x00 + 65536 * 0xFA + 16777216 * 0x42)).sign
        = 0 := by decide
    have hm : (Float32frombits (0x00 + 256 * 0x00 + 65536 * 0xFA + 16777216 * 0x42)).mant
        = 16384000 := by decide
    have he : (Float32frombits (0x00 + 256 * 0x00 + 65536 * 0xFA + 16777216 * 0x42)).scale
        = 133 := by decide
    unfold Float32.toRat
    rw [hs, hm, he]
    norm_num
  refine ⟨getDuration_whole_seconds 0x00 0x00 0xFA 0x42 (by norm_num) (by norm_num)
    (by norm_num) (by norm_num) (by decide) (by rw [hv]; norm_num) (by rw [hv]; norm_num),
    hv, by decide, by decide⟩

/-- C5 (as stated) fails: `2^34` is a finite non-negative `float32` (bit pattern
`0x50800000`), its `floor` is 17179869184 seconds, i.e. `4772185h53m4s`, yet the
display string `getDuration` returns is `-351909h41m29.709551616s`: the
multiplication by `time.Second` overflows `int64`. -/
theorem getDuration_overflow_counterexample :
    (Float32frombits 0x50800000).isFinite = true ∧
      (Float32frombits 0x50800000).toRat = 17179869184 ∧
      renderSeconds 17179869184 = "4772185h53m4s" ∧
      getDuration [0x00, 0x00, 0x80, 0x50]
        = some (Float32frombits 0x50800000, "-351909h41m29.709551616s") ∧
      getDuration [0x00, 0x00, 0x80, 0x50]
        ≠ some (Float32frombits 0x50800000, renderSeconds 17179869184) := by
  have hs : (Float32frombits 0x50800000).sign = 0 := by decide
  have hm : (Float32frombits 0x50800000).mant = 8388608 := by decide
  have he : (Float32frombits 0x50800000).scale = 161 := by decide
  refine ⟨by decide, ?_, by decide, by decide, by decide⟩
  unfold Float32.toRat
  rw [hs, hm, he]
  norm_num

end Steam
